import Mathlib

set_option autoImplicit false

/-!
Verification development for the `snap-analog` log analyzer
(`src/src/log_analyzer.py`), shallowly embedded in Lean.

Modelling conventions:
* Python `dict` / `defaultdict(int)` objects are association lists
  `List (key × value)` kept in insertion order (Python 3.7+ dicts preserve
  insertion order; updates keep the position of an existing key, new keys
  are appended at the end).
* The `heapq` min-heap list is modelled as a list kept sorted ascending by
  the lexicographic order on its `(count, tie, item)` tuples.  Every
  decision the source takes depends only on the heap's minimum element
  (`heap[0]`) and on the set of its members, both of which are identical
  for the binary-heap array and for the sorted list.  `_update_heap`
  iterates over a Python `set`, whose order is unspecified; sorting makes
  the rebuilt heap independent of that iteration order.
* Exceptions are modelled with `Option`: `none` is a raised
  `ValueError`/`KeyError`, `some` a normal return.
* Machine integers do not overflow here (Python ints are unbounded), so
  counts are plain `Nat`.
-/

namespace SnapAnalog

/-! ## Association-list model of Python dicts -/

section Dict

variable {α : Type} {β : Type} [DecidableEq α]

/-- First value stored under key `a`, if any (Python `d.get(a)` / `a in d`). -/
def dictFind (d : List (α × β)) (a : α) : Option β :=
  match d with
  | [] => none
  | (b, v) :: rest => if a = b then some v else dictFind rest a

/-- Keys of the dict, in insertion order (Python `list(d)`). -/
def dictKeys (d : List (α × β)) : List α := d.map Prod.fst

/-- Python `a in d`. -/
def dictHasKey (d : List (α × β)) (a : α) : Bool := (dictFind d a).isSome

/-- `defaultdict(int)` read: missing keys read as `0`. -/
def counterGet (d : List (α × Nat)) (a : α) : Nat := (dictFind d a).getD 0

/-- `d[a] += 1` on a `defaultdict(int)` / `Counter`: an existing key is
updated in place, a missing key is appended with value `1`. -/
def counterInc (d : List (α × Nat)) (a : α) : List (α × Nat) :=
  if (dictFind d a).isSome then
    d.map (fun p => if p.1 = a then (p.1, p.2 + 1) else p)
  else
    d ++ [(a, 1)]

/-- `d[a] += 1` on a plain dict: raises `KeyError` (models as `none`) when
the key is absent. -/
def dictInc (d : List (α × Nat)) (a : α) : Option (List (α × Nat)) :=
  if (dictFind d a).isSome then
    some (d.map (fun p => if p.1 = a then (p.1, p.2 + 1) else p))
  else
    none

end Dict

/-! ## TopKTracker (`log_analyzer.py`, lines 48-123) -/

section Tracker

variable {α : Type} [LinearOrder α]

/-- A heap entry `(count, tie, item)`, compared lexicographically exactly as
Python compares the tuples `(current_count, insertion_counter, item)`. -/
def entryLE (e f : Nat × Nat × α) : Prop :=
  e.1 < f.1 ∨ (e.1 = f.1 ∧ (e.2.1 < f.2.1 ∨ (e.2.1 = f.2.1 ∧ e.2.2 ≤ f.2.2)))

instance : DecidableRel (entryLE (α := α)) := by
  intro e f
  unfold entryLE
  infer_instance

instance : IsTotal (Nat × Nat × α) entryLE := by
  constructor
  intro e f
  unfold entryLE
  rcases Nat.lt_trichotomy e.1 f.1 with h | h | h
  · exact Or.inl (Or.inl h)
  · rcases Nat.lt_trichotomy e.2.1 f.2.1 with h2 | h2 | h2
    · exact Or.inl (Or.inr ⟨h, Or.inl h2⟩)
    · rcases le_total e.2.2 f.2.2 with h3 | h3
      · exact Or.inl (Or.inr ⟨h, Or.inr ⟨h2, h3⟩⟩)
      · exact Or.inr (Or.inr ⟨h.symm, Or.inr ⟨h2.symm, h3⟩⟩)
    · exact Or.inr (Or.inr ⟨h.symm, Or.inl h2⟩)
  · exact Or.inr (Or.inl h)

instance : IsTrans (Nat × Nat × α) entryLE := by
  constructor
  intro a b c hab hbc
  unfold entryLE at *
  rcases hab with h1 | ⟨e1, h1⟩
  · rcases hbc with h2 | ⟨e2, _⟩
    · exact Or.inl (h1.trans h2)
    · exact Or.inl (e2 ▸ h1)
  · rcases hbc with h2 | ⟨e2, h2⟩
    · exact Or.inl (e1 ▸ h2)
    · refine Or.inr ⟨e1.trans e2, ?_⟩
      rcases h1 with h1 | ⟨f1, h1⟩
      · rcases h2 with h2 | ⟨f2, _⟩
        · exact Or.inl (h1.trans h2)
        · exact Or.inl (f2 ▸ h1)
      · rcases h2 with h2 | ⟨f2, h2⟩
        · exact Or.inl (f1 ▸ h2)
        · exact Or.inr ⟨f1.trans f2, h1.trans h2⟩

/-- Output order of `get_top_k`: Python `sorted(heap, key=lambda x: (-x[0], x[1]))`,
i.e. count descending, then stored tie key ascending. -/
def topLE (e f : Nat × Nat × α) : Prop :=
  f.1 < e.1 ∨ (e.1 = f.1 ∧ e.2.1 ≤ f.2.1)

instance : DecidableRel (topLE (α := α)) := by
  intro e f
  unfold topLE
  infer_instance

instance : IsTotal (Nat × Nat × α) topLE := by
  constructor
  intro e f
  unfold topLE
  rcases Nat.lt_trichotomy e.1 f.1 with h | h | h
  · exact Or.inr (Or.inl h)
  · rcases le_total e.2.1 f.2.1 with h2 | h2
    · exact Or.inl (Or.inr ⟨h, h2⟩)
    · exact Or.inr (Or.inr ⟨h.symm, h2⟩)
  · exact Or.inl (Or.inl h)

instance : IsTrans (Nat × Nat × α) topLE := by
  constructor
  intro a b c hab hbc
  unfold topLE at *
  rcases hab with h1 | ⟨e1, h1⟩
  · rcases hbc with h2 | ⟨e2, _⟩
    · exact Or.inl (h2.trans h1)
    · exact Or.inl (e2 ▸ h1)
  · rcases hbc with h2 | ⟨e2, h2⟩
    · exact Or.inl (e1 ▸ h2)
    · exact Or.inr ⟨e1.trans e2, h1.trans h2⟩

/-- Sort order used inside `prune`: Python `sort(key=lambda x: x[1])`,
i.e. ascending count.  `insertionSort` with `≤` is stable, like Python's sort. -/
def countLE (p q : α × Nat) : Prop := p.2 ≤ q.2

instance : DecidableRel (countLE (α := α)) := by
  intro p q
  unfold countLE
  infer_instance

instance : IsTotal (α × Nat) countLE := ⟨fun p q => le_total p.2 q.2⟩

instance : IsTrans (α × Nat) countLE := ⟨fun _ _ _ h1 h2 => le_trans h1 h2⟩

/-- State of `TopKTracker` (`__init__`, lines 49-55).  The unused `name`
field and the derived `get_stats` view are omitted. -/
structure TopKTracker (α : Type) where
  k : Nat
  counts : List (α × Nat)
  heap : List (Nat × Nat × α)
  insertion_counter : Nat
  total_adds : Nat
deriving DecidableEq

/-- `TopKTracker(k)` (lines 49-55). -/
def TopKTracker.init (k : Nat) : TopKTracker α := ⟨k, [], [], 0, 0⟩

/-- `_update_heap` (lines 74-82): rebuild every current heap entry from the
exact counts, with tie key `0`.  The Python code pushes the members of a
`set` one by one; the resulting binary heap's array layout depends on the
set's iteration order, but its member set does not — we keep the rebuilt
heap sorted, which is one valid layout. -/
def updateHeapList (counts : List (α × Nat)) (heap : List (Nat × Nat × α)) :
    List (Nat × Nat × α) :=
  List.insertionSort entryLE (heap.map (fun e => (counterGet counts e.2.2, 0, e.2.2)))

/-- `add` (lines 57-72).  In the branch where the heap is full and empty at
the same time (only possible for `k = 0`) Python raises `IndexError` on
`self.heap[0]`; the model leaves the heap unchanged there. -/
def TopKTracker.add (t : TopKTracker α) (item : α) : TopKTracker α :=
  let ctr := t.insertion_counter + 1
  let counts := counterInc t.counts item
  let current_count := counterGet counts item
  let item_in_heap := t.heap.any (fun e => decide (e.2.2 = item))
  let heap :=
    if item_in_heap then
      updateHeapList counts t.heap
    else if t.heap.length < t.k then
      List.orderedInsert entryLE (current_count, ctr, item) t.heap
    else
      match t.heap with
      | [] => t.heap
      | root :: rest =>
        if root.1 < current_count then
          List.orderedInsert entryLE (current_count, ctr, item) rest
        else
          root :: rest
  ⟨t.k, counts, heap, ctr, t.total_adds + 1⟩

/-- Items currently in the candidate heap. -/
def heapItems (t : TopKTracker α) : List α := t.heap.map (fun e => e.2.2)

/-- `prune` (lines 84-100). -/
def TopKTracker.prune (t : TopKTracker α) (percent : Nat) : TopKTracker α :=
  if t.counts.length ≤ t.k then t
  else
    let heap_items := heapItems t
    let non_heap_items := (dictKeys t.counts).filter (fun a => decide (a ∉ heap_items))
    if non_heap_items.isEmpty then t
    else
      let to_remove := max (non_heap_items.length * percent / 100) 1
      let with_counts := non_heap_items.map (fun a => (a, counterGet t.counts a))
      let sorted := List.insertionSort countLE with_counts
      let removed := (sorted.take to_remove).map Prod.fst
      ⟨t.k, t.counts.filter (fun p => decide (p.1 ∉ removed)), t.heap,
        t.insertion_counter, t.total_adds⟩

/-- `get_top_k` (lines 102-107), with the length argument always given
explicitly (Python's default is the heap length). -/
def TopKTracker.get_top_k (t : TopKTracker α) (n : Nat) : List (α × Nat) :=
  ((List.insertionSort topLE t.heap).take n).map (fun e => (e.2.2, counterGet t.counts e.2.2))

/-- One tracker operation, for quantifying over reachable states. -/
inductive TrackerOp (α : Type) where
  | add (item : α)
  | prune (percent : Nat)
deriving DecidableEq

/-- Run a sequence of operations from a fresh tracker. -/
def applyOp (t : TopKTracker α) : TrackerOp α → TopKTracker α
  | TrackerOp.add a => t.add a
  | TrackerOp.prune p => t.prune p

def applyOps (t : TopKTracker α) (ops : List (TrackerOp α)) : TopKTracker α :=
  ops.foldl applyOp t

end Tracker

/-! ## Module constants (`log_analyzer.py`, lines 11-36) -/

def TOP_N_RESULTS : Nat := 10
def STATUS_CODE_LENGTH : Nat := 3
def VALID_HTTP_METHODS : List String :=
  ["GET", "POST", "PUT", "DELETE", "PATCH", "HEAD", "OPTIONS", "CONNECT", "TRACE"]
def MAX_UNIQUE_IPS : Nat := 100000
def MAX_UNIQUE_URLS : Nat := 50000
def MAX_UNIQUE_MINUTES : Nat := 10000
def PRUNE_EVERY_N_LINES : Nat := 100000
def SMALL_FILE_THRESHOLD : Nat := 100
def MEDIUM_FILE_THRESHOLD : Nat := 1000
def MIN_STATUS_CODE : Nat := 100
def MAX_STATUS_CODE : Nat := 599

/-! ## Character helpers -/

/-- Python's `\s` on ASCII input (the regex also accepts some Unicode
whitespace, which this analyzer's inputs do not use). -/
def isPySpace (c : Char) : Bool :=
  c = ' ' || c = '\t' || c = '\n' || c = '\r' || c = '\x0b' || c = '\x0c'

/-- Split a character list at every occurrence of the separator character
(Python `str.split(sep)` for a one-character separator: `n` separators
produce `n + 1` pieces, empty pieces included). -/
def splitOnChar (sep : Char) : List Char → List (List Char)
  | [] => [[]]
  | c :: rest =>
    if c = sep then [] :: splitOnChar sep rest
    else
      match splitOnChar sep rest with
      | [] => [[c]]
      | g :: gs => (c :: g) :: gs

/-- The content before the first `::` and, when one occurs, the content
after it (Python `str.split("::")` restricted to the first occurrence;
later occurrences stay inside the second component). -/
def splitColonColon : List Char → List Char × Option (List Char)
  | [] => ([], none)
  | ':' :: ':' :: rest => ([], some rest)
  | c :: rest =>
    let r := splitColonColon rest
    (c :: r.1, r.2)

/-- Python `str.split()` with no arguments: the maximal runs of
non-whitespace characters. -/
def wordsAux (cur : List Char) : List Char → List (List Char)
  | [] => if cur.isEmpty then [] else [cur.reverse]
  | c :: rest =>
    if isPySpace c then
      (if cur.isEmpty then wordsAux [] rest else cur.reverse :: wordsAux [] rest)
    else wordsAux (c :: cur) rest

/-- `pat` is a leading segment of `cs` (Python `str.startswith`). -/
def leadsWith : List Char → List Char → Bool
  | [], _ => true
  | _ :: _, [] => false
  | p :: ps, c :: cs => p = c && leadsWith ps cs

def pyStartsWith (s pat : String) : Bool := leadsWith pat.toList s.toList

/-- Numeric value of a list of ASCII digits (most significant first). -/
def digitsToNat (l : List Char) : Nat :=
  l.foldl (fun n c => n * 10 + (c.toNat - '0'.toNat)) 0

/-- Decimal digits of `n`, zero-padded on the left to width `w`
(`strftime` zero padding). -/
def padDigits (w n : Nat) : List Char :=
  let ds := Nat.toDigits 10 n
  List.replicate (w - ds.length) '0' ++ ds

/-! ## The structural log pattern (`log_pattern`, lines 38-46)

`re.match` with
`(?P<ip>\S+)\s+(?P<identd>\S+)\s+(?P<authuser>\S+)\s+\[(?P<timestamp>[^\]]+)\]\s+"(?P<request>[^"]*)"\s+(?P<status>\d{3})\s+(?P<size>\d+|-)`.
Each `\S+\s+` pair can only match the maximal non-space run followed by at
least one space (no other backtracking alternative exists because `\s` and
`\S` are complementary), `[^\]]+` stops at the first `]`, `[^"]*` at the
first `"`, `\d{3}` is exactly three digits, and trailing characters after
the size group are permitted because `re.match` does not anchor the end. -/

structure Groups where
  ip : String
  identd : String
  authuser : String
  timestamp : String
  request : String
  status : String
  size : String
deriving DecidableEq

def logMatchAux (cs : List Char) : Option Groups :=
  let (ipL, r1) := cs.span (fun c => !(isPySpace c))
  if ipL.isEmpty then none else
  let (sp1, r2) := r1.span isPySpace
  if sp1.isEmpty then none else
  let (idL, r3) := r2.span (fun c => !(isPySpace c))
  if idL.isEmpty then none else
  let (sp2, r4) := r3.span isPySpace
  if sp2.isEmpty then none else
  let (auL, r5) := r4.span (fun c => !(isPySpace c))
  if auL.isEmpty then none else
  let (sp3, r6) := r5.span isPySpace
  if sp3.isEmpty then none else
  match r6 with
  | '[' :: r7 =>
    let (tsL, r8) := r7.span (fun c => !(c = ']'))
    if tsL.isEmpty then none else
    match r8 with
    | ']' :: r9 =>
      let (sp4, r10) := r9.span isPySpace
      if sp4.isEmpty then none else
      match r10 with
      | '"' :: r11 =>
        let (reqL, r12) := r11.span (fun c => !(c = '"'))
        match r12 with
        | '"' :: r13 =>
          let (sp5, r14) := r13.span isPySpace
          if sp5.isEmpty then none else
          match r14 with
          | d1 :: d2 :: d3 :: r15 =>
            if d1.isDigit && d2.isDigit && d3.isDigit then
              let (sp6, r16) := r15.span isPySpace
              if sp6.isEmpty then none else
              match r16 with
              | c :: r17 =>
                if c.isDigit then
                  let (szL, _) := r17.span Char.isDigit
                  some ⟨String.mk ipL, String.mk idL, String.mk auL, String.mk tsL,
                        String.mk reqL, String.mk [d1, d2, d3], String.mk (c :: szL)⟩
                else if c = '-' then
                  some ⟨String.mk ipL, String.mk idL, String.mk auL, String.mk tsL,
                        String.mk reqL, String.mk [d1, d2, d3], String.mk ['-']⟩
                else none
              | [] => none
            else none
          | _ => none
        | _ => none
      | _ => none
    | _ => none
  | _ => none

def logMatch (s : String) : Option Groups := logMatchAux s.toList

/-! ## Field validators (lines 125-188)

`parse_minute` models `datetime.strptime(s, "%d/%b/%Y:%H:%M:%S %z")`
followed by `strftime("%Y-%m-%d %H:%M")`: CPython's `%d`/`%H`/`%M`/`%S`
accept one or two digits within their ranges, `%b` is a case-insensitive
three-letter month abbreviation, `%Y` is exactly four digits, whitespace in
the format matches a nonempty whitespace run, `%z` is `Z` or
`[+-]HH[:]?MM` with optional `[:]?SS` and optional fraction, the whole
string must be consumed, the day must exist in the month, the year must be
at least 1 (`datetime.MINYEAR`), and the offset hours at most 23 (the
`timezone` range check); any violation raises `ValueError` (`none`). -/

def monthNum (a b c : Char) : Option Nat :=
  let s := String.mk [a.toLower, b.toLower, c.toLower]
  if s = "jan" then some 1 else if s = "feb" then some 2
  else if s = "mar" then some 3 else if s = "apr" then some 4
  else if s = "may" then some 5 else if s = "jun" then some 6
  else if s = "jul" then some 7 else if s = "aug" then some 8
  else if s = "sep" then some 9 else if s = "oct" then some 10
  else if s = "nov" then some 11 else if s = "dec" then some 12
  else none

def isLeapYear (y : Nat) : Bool := (y % 4 = 0 && !(y % 100 = 0)) || y % 400 = 0

def daysInMonth (y m : Nat) : Nat :=
  if m = 2 then (if isLeapYear y then 29 else 28)
  else if m = 4 || m = 6 || m = 9 || m = 11 then 30
  else 31

/-- Parse a one- or two-digit numeric field: a two-digit run must lie in
`[lo2, hi2]`, a single digit in `[lo1, 9]`; any longer digit run fails. -/
def parseField (lo2 hi2 lo1 : Nat) (cs : List Char) : Option (Nat × List Char) :=
  let (ds, r) := cs.span Char.isDigit
  let v := digitsToNat ds
  if ds.length = 2 then
    if lo2 ≤ v ∧ v ≤ hi2 then some (v, r) else none
  else if ds.length = 1 then
    if lo1 ≤ v then some (v, r) else none
  else none

/-- The optional seconds (and fraction) tail of a `%z` offset, followed by
end of input.  `colonStyle` records whether the hours-minutes separator was
a colon: CPython raises `Inconsistent use of :` when the seconds separator
does not match it. -/
def zTailOk (colonStyle : Bool) (cs : List Char) : Bool :=
  match cs with
  | [] => true
  | _ =>
    let t? : Option (List Char) :=
      match cs with
      | ':' :: rest => if colonStyle then some rest else none
      | _ => if colonStyle then none else some cs
    match t? with
    | none => false
    | some t =>
      match t with
      | s1 :: s2 :: t2 =>
        if s1.isDigit && s2.isDigit && digitsToNat [s1, s2] ≤ 59 then
          match t2 with
          | [] => true
          | '.' :: ds =>
            ds.length ≥ 1 && ds.length ≤ 6 && ds.all Char.isDigit
          | _ => false
        else false
      | _ => false

/-- The `%z` directive plus the end-of-input check. -/
def parseZone (cs : List Char) : Bool :=
  match cs with
  | ['Z'] => true
  | sgn :: h1 :: h2 :: rest =>
    (sgn = '+' || sgn = '-') && h1.isDigit && h2.isDigit &&
    digitsToNat [h1, h2] ≤ 23 &&
    (let colonStyle :=
      match rest with
      | ':' :: _ => true
      | _ => false
     let rest2 := match rest with
      | ':' :: r => r
      | _ => rest
     match rest2 with
     | m1 :: m2 :: r3 =>
       m1.isDigit && m2.isDigit && digitsToNat [m1, m2] ≤ 59 && zTailOk colonStyle r3
     | _ => false)
  | _ => false

def parse_minute (s : String) : Option String :=
  let cs := s.toList
  match parseField 1 31 1 cs with
  | none => none
  | some (day, r1) =>
    match r1 with
    | '/' :: a :: b :: c :: '/' :: y1 :: y2 :: y3 :: y4 :: ':' :: r2 =>
      match monthNum a b c with
      | none => none
      | some mon =>
        if y1.isDigit && y2.isDigit && y3.isDigit && y4.isDigit then
          let year := digitsToNat [y1, y2, y3, y4]
          match parseField 0 23 0 r2 with
          | none => none
          | some (hour, r3) =>
            match r3 with
            | ':' :: r4 =>
              match parseField 0 59 0 r4 with
              | none => none
              | some (minute, r5) =>
                match r5 with
                | ':' :: r6 =>
                  match parseField 0 61 0 r6 with
                  | none => none
                  | some (second, r7) =>
                    let (sp, r8) := r7.span isPySpace
                    if sp.isEmpty then none
                    else if parseZone r8 then
                      if 1 ≤ year ∧ 1 ≤ day ∧ day ≤ daysInMonth year mon ∧ second ≤ 59 then
                        some (String.mk (padDigits 4 year ++ '-' :: padDigits 2 mon ++
                          '-' :: padDigits 2 day ++ ' ' :: padDigits 2 hour ++
                          ':' :: padDigits 2 minute))
                      else none
                    else none
                | _ => none
            | _ => none
        else none
    | _ => none

def parse_timestamp (g : Groups) : Option String := parse_minute g.timestamp

/-- Model of `ipaddress.ip_address` validity on strings: a dotted-quad IPv4
address (decimal octets `0..255`, no leading zeros) or an RFC-4291 IPv6
address (hextets of one to four hex digits, at most one `::`, an optional
trailing embedded IPv4 part, an optional nonempty `%zone`). -/
def isIPv4List (cs : List Char) : Bool :=
  let parts := splitOnChar '.' cs
  parts.length = 4 && parts.all (fun p =>
    1 ≤ p.length && p.length ≤ 3 && p.all Char.isDigit &&
    (p.length = 1 || !(p.headD ' ' = '0')) &&
    digitsToNat p ≤ 255)

def isIPv4String (s : String) : Bool := isIPv4List s.toList

def isHexChar (c : Char) : Bool :=
  c.isDigit || ('a' ≤ c.toLower && c.toLower ≤ 'f')

def hextetOk (p : List Char) : Bool :=
  1 ≤ p.length && p.length ≤ 4 && p.all isHexChar

def isIPv6Core (cs : List Char) : Bool :=
  match splitColonColon cs with
  | (whole, none) =>
    let gs := splitOnChar ':' whole
    (gs.length = 8 && gs.all hextetOk) ||
    (gs.length = 7 && (gs.take 6).all hextetOk &&
      (match gs.getLast? with
       | some last => isIPv4List last
       | none => false))
  | (l, some r) =>
    let lg := if l.isEmpty then [] else splitOnChar ':' l
    let rg := if r.isEmpty then [] else splitOnChar ':' r
    lg.all hextetOk &&
    (match rg.getLast? with
     | none => lg.length ≤ 7
     | some last =>
       rg.dropLast.all hextetOk &&
       ((hextetOk last && lg.length + rg.length ≤ 7) ||
        (isIPv4List last && lg.length + rg.length + 1 ≤ 7)))

def isIPv6String (s : String) : Bool :=
  match splitOnChar '%' s.toList with
  | [addr] => isIPv6Core addr
  | [addr, zone] => !zone.isEmpty && isIPv6Core addr
  | _ => false

def isIPString (s : String) : Bool := isIPv4String s || isIPv6String s

/-- `parse_ip` (lines 132-139), with `VALIDATE_IP_FORMAT = True`. -/
def parse_ip (g : Groups) : Option String :=
  if isIPString g.ip then some g.ip else none

/-- Model of Python `int()` on the decimal strings this analyzer feeds it
(sign- and whitespace-free). -/
def pyIntOfString (s : String) : Option Nat :=
  let cs := s.toList
  if !cs.isEmpty && cs.all Char.isDigit then some (digitsToNat cs) else none

/-- `parse_status` (lines 141-158), with `VALIDATE_STATUS_CODE = True`:
both a malformed and an out-of-range status raise `ValueError`; on success
the status group is `"{status[0]}xx"` when the status has exactly
`STATUS_CODE_LENGTH` characters, else `"Unknown"`. -/
def parse_status (g : Groups) : Option (String × String) :=
  let status := g.status
  match pyIntOfString status with
  | none => none
  | some n =>
    if MIN_STATUS_CODE ≤ n ∧ n ≤ MAX_STATUS_CODE then
      some (status,
        if !(status = "") ∧ status.length = STATUS_CODE_LENGTH then
          String.mk (status.toList.take 1) ++ "xx"
        else "Unknown")
    else none

/-- Python `str.split()` with no arguments: split on whitespace runs,
dropping empty pieces. -/
def pySplitWs (s : String) : List String :=
  (wordsAux [] s.toList).map String.mk

/-- `parse_request` (lines 160-182). -/
def parse_request (g : Groups) : Option (String × String) :=
  if g.request = "" then none
  else
    match pySplitWs g.request with
    | [method, path, protocol] =>
      if method ∈ VALID_HTTP_METHODS then
        if pyStartsWith path "/" then
          if pyStartsWith protocol "HTTP/" then some (method, path) else none
        else none
      else none
    | _ => none

/-- `parse_size` (lines 184-188): digits-only sizes parse, anything else
(including `-`) is `None`; this never raises. -/
def parse_size (g : Groups) : Option Nat :=
  if !(g.size = "") && g.size.toList.all Char.isDigit then
    some (digitsToNat g.size.toList)
  else none

/-- `record_failure` (lines 190-195): the whole body, including the
increment of an existing key, is guarded by `len(failed_attempts) < 1000`.
Values are `(count, reason)`. -/
def record_failure (fa : List (String × Nat × String)) (line reason : String) :
    List (String × Nat × String) :=
  if fa.length < 1000 then
    if (dictFind fa line).isSome then
      fa.map (fun p => if p.1 = line then (p.1, p.2.1 + 1, p.2.2) else p)
    else fa ++ [(line, 1, reason)]
  else fa

/-! ## Memory-mode selection (`get_memory_mode_for_file`, lines 197-214) -/

structure Limits where
  max_ips : Nat
  max_urls : Nat
  max_minutes : Nat
deriving DecidableEq

/-- `get_memory_mode_for_file`: the byte size is supplied by the caller
(`none` models the `os.path.getsize` exception path, which sets the size
to `0`); the megabyte value is the Python float division
`file_size_bytes / (1024 * 1024)`, exact in rationals for these inputs. -/
def get_memory_mode_for_file (file_size_bytes : Option Nat) : String × Limits × ℚ :=
  let file_size_mb : ℚ :=
    match file_size_bytes with
    | some b => (b : ℚ) / (1024 * 1024)
    | none => 0
  if file_size_mb < (SMALL_FILE_THRESHOLD : ℚ) then
    ("FULL", ⟨0, 0, 0⟩, file_size_mb)
  else if file_size_mb < (MEDIUM_FILE_THRESHOLD : ℚ) then
    ("BALANCED", ⟨MAX_UNIQUE_IPS, MAX_UNIQUE_URLS, MAX_UNIQUE_MINUTES⟩, file_size_mb)
  else
    ("AGGRESSIVE", ⟨MAX_UNIQUE_IPS / 2, MAX_UNIQUE_URLS / 2, MAX_UNIQUE_MINUTES / 2⟩,
      file_size_mb)

/-! ## Per-line validation pipeline (`analyze_log_optimized`, lines 269-336) -/

inductive VField where
  | vTimestamp
  | vIp
  | vStatus
  | vRequest
deriving DecidableEq

inductive LineOutcome where
  | accepted (minute ip status group method path : String) (size : Option Nat)
  | failed (reason : String)
  | dropped
deriving DecidableEq

/-- Lines 281-309: run the validators in their fixed order, each guarded by
`line_is_valid`, so the first failure short-circuits the rest.  The second
component records which validators were invoked.  `dropped` models the
final truthiness guard `temp_ip and temp_minute and temp_status and
temp_method and temp_path` evaluating falsy with `line_is_valid` still
true: the line is then silently skipped. -/
def processMatched (g : Groups) : LineOutcome × List VField :=
  match parse_timestamp g with
  | none => (LineOutcome.failed "timestamp_error", [VField.vTimestamp])
  | some minute =>
    match parse_ip g with
    | none => (LineOutcome.failed "ip_error", [VField.vTimestamp, VField.vIp])
    | some ip =>
      match parse_status g with
      | none => (LineOutcome.failed "status_error",
          [VField.vTimestamp, VField.vIp, VField.vStatus])
      | some (st, gr) =>
        match parse_request g with
        | none => (LineOutcome.failed "request_error",
            [VField.vTimestamp, VField.vIp, VField.vStatus, VField.vRequest])
        | some (meth, path) =>
          if !(ip = "") && !(minute = "") && !(st = "") && !(meth = "") && !(path = "") then
            (LineOutcome.accepted minute ip st gr meth path (parse_size g),
              [VField.vTimestamp, VField.vIp, VField.vStatus, VField.vRequest])
          else
            (LineOutcome.dropped,
              [VField.vTimestamp, VField.vIp, VField.vStatus, VField.vRequest])

/-! ## The streaming loop (`analyze_log_optimized`, lines 216-435) -/

structure RunConfig where
  memory_mode : String
  limits : Limits
deriving DecidableEq

/-- `use_top_k` is set exactly when `limits['max_ips'] > 0` (line 230). -/
def RunConfig.use_top_k (c : RunConfig) : Bool := 0 < c.limits.max_ips

/-- Mutable loop state.  Python allocates either the three `TopKTracker`s
or the three `Counter`s depending on the mode; the model carries both, the
unused triple staying at its initial value.  `pruneEvents` records each
`prune` invocation as `(tracker name, percent, line number)`. -/
structure RunState where
  total_requests : Nat
  total_lines_processed : Nat
  total_size : Nat
  size_count : Nat
  min_size : Option Nat
  max_size : Option Nat
  failed_attempts : List (String × Nat × String)
  ips_tracker : TopKTracker String
  urls_tracker : TopKTracker String
  minutes_tracker : TopKTracker String
  ips_counter : List (String × Nat)
  urls_counter : List (String × Nat)
  minutes_counter : List (String × Nat)
  statuses : List (String × Nat)
  status_groups : List (String × Nat)
  methods : List (String × Nat)
  pruneEvents : List (String × Nat × Nat)
deriving DecidableEq

/-- Lines 222-243: counters at zero, `failed_attempts = {}`, trackers sized
by the limits, and the status-group dict with its five literal keys. -/
def initState (cfg : RunConfig) : RunState :=
  ⟨0, 0, 0, 0, none, none, [],
   TopKTracker.init cfg.limits.max_ips,
   TopKTracker.init cfg.limits.max_urls,
   TopKTracker.init cfg.limits.max_minutes,
   [], [], [], [],
   [("2xx", 0), ("3xx", 0), ("4xx", 0), ("5xx", 0), ("Unknown", 0)],
   [], []⟩

/-- `line.rstrip("\r\n")`. -/
def rstripCRLF (cs : List Char) : List Char :=
  (cs.reverse.dropWhile (fun c => c = '\r' || c = '\n')).reverse

/-- Lines 308-336, the accept block for a fully validated record.  Python
mutates in order: `total_requests`, the three trackers or counters,
`statuses`, then `status_groups[temp_group] += 1` — which raises `KeyError`
when `temp_group` is not one of the five literal keys; the mutations made
before the raise persist and the outer `except Exception` handler records
the line as `unexpected_error` (line 338-340).  Otherwise `methods` and the
size statistics are updated. -/
def acceptStep (cfg : RunConfig) (st : RunState) (line_original : String)
    (minute ip _status group method path : String) (size : Option Nat) : RunState :=
  let st := { st with total_requests := st.total_requests + 1 }
  let st :=
    if cfg.use_top_k then
      { st with ips_tracker := st.ips_tracker.add ip,
                urls_tracker := st.urls_tracker.add path,
                minutes_tracker := st.minutes_tracker.add minute }
    else
      { st with ips_counter := counterInc st.ips_counter ip,
                urls_counter := counterInc st.urls_counter path,
                minutes_counter := counterInc st.minutes_counter minute }
  let st := { st with statuses := counterInc st.statuses _status }
  match dictInc st.status_groups group with
  | none =>
    { st with failed_attempts :=
        record_failure st.failed_attempts line_original "unexpected_error" }
  | some sg =>
    let st := { st with status_groups := sg, methods := counterInc st.methods method }
    match size with
    | none => st
    | some sz =>
      { st with
        total_size := st.total_size + sz,
        size_count := st.size_count + 1,
        min_size := some (match st.min_size with
          | none => sz
          | some m => if sz < m then sz else m),
        max_size := some (match st.max_size with
          | none => sz
          | some m => if m < sz then sz else m) }

/-- Lines 249-340: one iteration of the `for line_num, line in enumerate(f, 1)`
loop.  `total_lines_processed` is incremented first and then equals
`line_num`; on lines divisible by 100000 and in bounded modes, `prune` is
invoked on the IPs and URLs trackers (lines 252-260). -/
def lineStep (cfg : RunConfig) (st : RunState) (rawLine : String) : RunState :=
  let st := { st with total_lines_processed := st.total_lines_processed + 1 }
  let line_num := st.total_lines_processed
  let st :=
    if line_num % 100000 = 0 && cfg.use_top_k && line_num % PRUNE_EVERY_N_LINES = 0 then
      let prune_percent := if cfg.memory_mode = "BALANCED" then 5 else 20
      { st with ips_tracker := st.ips_tracker.prune prune_percent,
                urls_tracker := st.urls_tracker.prune prune_percent,
                pruneEvents := st.pruneEvents ++
                  [("IPs", prune_percent, line_num), ("URLs", prune_percent, line_num)] }
    else st
  let cs := rawLine.toList
  let cs :=
    match cs with
    | c :: rest => if c = Char.ofNat 0xFEFF then rest else c :: rest
    | [] => []
  let line_original := String.mk (rstripCRLF cs)
  if line_original = "" || pyStartsWith line_original "#" then st
  else
    match logMatch line_original with
    | none =>
      { st with failed_attempts :=
          record_failure st.failed_attempts line_original "regex_no_match" }
    | some g =>
      match (processMatched g).1 with
      | LineOutcome.failed reason =>
        { st with failed_attempts :=
            record_failure st.failed_attempts line_original reason }
      | LineOutcome.dropped => st
      | LineOutcome.accepted minute ip stt grp meth path size =>
        acceptStep cfg st line_original minute ip stt grp meth path size

def runLines (cfg : RunConfig) (lines : List String) : RunState :=
  lines.foldl (lineStep cfg) (initState cfg)

/-! ## Report assembly (lines 344-435) -/

/-- `Counter.most_common(n)`: count descending, insertion order on ties
(Python's stable sort). -/
def mostCommon (d : List (String × Nat)) (n : Nat) : List (String × Nat) :=
  (List.insertionSort (fun p q : String × Nat => q.2 ≤ p.2) d).take n

structure Summary where
  file : String
  memory_mode : String
  total_lines : Nat
  total_requests : Nat
deriving DecidableEq

structure HealthMetrics where
  success_rate_2xx_3xx : ℚ
  client_error_rate_4xx : ℚ
  server_error_rate_5xx : ℚ
  status_groups : List (String × Nat)
deriving DecidableEq

structure TrafficAnalysis where
  top_ips : List (String × Nat)
  top_urls : List (String × Nat)
  top_minutes : List (String × Nat)
  status_distribution : List (String × Nat)
  methods : List (String × Nat)
deriving DecidableEq

structure SizeAnalysis where
  min_bytes : Option Nat
  max_bytes : Option Nat
  avg_bytes : Option ℚ
  total_bytes : Option Nat
  requests_with_size : Nat
deriving DecidableEq

structure MemoryOptimization where
  mode : String
  limits : Limits
  failed_attempts_count : Nat
  sample_failures : List (String × Nat × String)
deriving DecidableEq

/-- The returned stats dict.  A failed run returns `{"error": ...}` only:
every other section is absent (`none`).  Wall-clock timing fields are not
modelled. -/
structure Report where
  error : Option String
  summary : Option Summary
  health_metrics : Option HealthMetrics
  traffic_analysis : Option TrafficAnalysis
  size_analysis : Option SizeAnalysis
  memory_optimization : Option MemoryOptimization
deriving DecidableEq

/-- How opening and reading the input ends: a full list of lines, a
`FileNotFoundError`, or another I/O exception with its message. -/
inductive OpenResult where
  | ok (lines : List String)
  | notFound
  | ioError (msg : String)
deriving DecidableEq

/-- `analyze_log_optimized` (lines 216-435).  The file system is supplied
as `file_size_bytes` (for `get_memory_mode_for_file`) and `openResult`
(the outcome of `open` plus the read loop).  Lines 344-349: a
`FileNotFoundError` returns `{"error": "FileNotFoundError"}` and any other
exception `{"error": str(e)}`, in both cases before any report section is
built. -/
def analyze_log_optimized (filepath : String) (file_size_bytes : Option Nat)
    (openResult : OpenResult) : Report :=
  let mlm := get_memory_mode_for_file file_size_bytes
  let memory_mode := mlm.1
  let limits := mlm.2.1
  let cfg : RunConfig := ⟨memory_mode, limits⟩
  match openResult with
  | OpenResult.notFound => ⟨some "FileNotFoundError", none, none, none, none, none⟩
  | OpenResult.ioError e => ⟨some e, none, none, none, none, none⟩
  | OpenResult.ok lines =>
    let st := runLines cfg lines
    let top_ips := if cfg.use_top_k then st.ips_tracker.get_top_k TOP_N_RESULTS
      else mostCommon st.ips_counter TOP_N_RESULTS
    let top_urls := if cfg.use_top_k then st.urls_tracker.get_top_k TOP_N_RESULTS
      else mostCommon st.urls_counter TOP_N_RESULTS
    let top_minutes := if cfg.use_top_k then st.minutes_tracker.get_top_k TOP_N_RESULTS
      else mostCommon st.minutes_counter TOP_N_RESULTS
    let success_2xx := counterGet st.status_groups "2xx"
    let success_3xx := counterGet st.status_groups "3xx"
    let client_4xx := counterGet st.status_groups "4xx"
    let server_5xx := counterGet st.status_groups "5xx"
    let success_rate : ℚ :=
      if 0 < st.total_requests then
        ((success_2xx + success_3xx : ℚ) / st.total_requests) * 100
      else 0
    let server_error_rate : ℚ :=
      if 0 < st.total_requests then ((server_5xx : ℚ) / st.total_requests) * 100 else 0
    let client_error_rate : ℚ :=
      if 0 < st.total_requests then ((client_4xx : ℚ) / st.total_requests) * 100 else 0
    let size_analysis : SizeAnalysis :=
      if 0 < st.size_count then
        ⟨st.min_size, st.max_size, some ((st.total_size : ℚ) / st.size_count),
          some st.total_size, st.size_count⟩
      else ⟨none, none, none, none, st.size_count⟩
    ⟨none,
     some ⟨filepath, memory_mode, st.total_lines_processed, st.total_requests⟩,
     some ⟨success_rate, client_error_rate, server_error_rate, st.status_groups⟩,
     some ⟨top_ips, top_urls, top_minutes, st.statuses, st.methods⟩,
     some size_analysis,
     some ⟨memory_mode, limits, st.failed_attempts.length, st.failed_attempts.take 5⟩⟩

/-! ## Derived definitions used by the verification -/

section Derived

variable {α : Type} [LinearOrder α]

/-- Whether a per-line outcome is an accepted record. -/
def LineOutcome.isAccepted : LineOutcome → Bool
  | LineOutcome.accepted _ _ _ _ _ _ _ => true
  | _ => false

/-- Run a sequence of plain `add` calls. -/
def addList (t : TopKTracker α) (items : List α) : TopKTracker α :=
  items.foldl TopKTracker.add t

/-- The keys of the exact count map that are not heap members, in map
order — the `non_heap_items` list computed inside `prune`. -/
def nonHeapKeys (t : TopKTracker α) : List α :=
  (dictKeys t.counts).filter (fun a => decide (a ∉ heapItems t))

/-- The keys `prune(percent)` deletes: the first `max(1, percent%)` of the
non-heap keys after the stable sort by ascending count. -/
def pruneRemoved (t : TopKTracker α) (percent : Nat) : List α :=
  ((List.insertionSort countLE
      ((nonHeapKeys t).map (fun a => (a, counterGet t.counts a)))).take
    (max ((nonHeapKeys t).length * percent / 100) 1)).map Prod.fst

/-- Structural well-formedness of a tracker state, preserved by `add` and
`prune`: count-map keys are distinct, every stored count is at least one,
the heap has at most `k` entries with pairwise-distinct items, and every
heap entry carries the current exact count of its item. -/
def WF (t : TopKTracker α) : Prop :=
  (dictKeys t.counts).Nodup ∧
  (∀ p ∈ t.counts, 1 ≤ p.2) ∧
  t.heap.length ≤ t.k ∧
  (heapItems t).Nodup ∧
  (∀ e ∈ t.heap, dictFind t.counts e.2.2 = some e.1)

/-- Modelled from the spec: the position of the first `add` of an item in
an operation sequence — "the order in which tied items were inserted". -/
def firstAddIndex (ops : List (TrackerOp α)) (a : α) : Nat :=
  ops.findIdx (fun op => match op with
    | TrackerOp.add b => decide (b = a)
    | TrackerOp.prune _ => false)

/-- Modelled from the spec: "sorted by count descending with ties broken by
ascending insertion order (the order in which tied items were inserted)". -/
def specTieOrdered (ops : List (TrackerOp α)) (out : List (α × Nat)) : Prop :=
  out.Pairwise (fun p q =>
    q.2 < p.2 ∨ (p.2 = q.2 ∧ firstAddIndex ops p.1 ≤ firstAddIndex ops q.1))

instance (ops : List (TrackerOp α)) (out : List (α × Nat)) :
    Decidable (specTieOrdered ops out) := by
  unfold specTieOrdered
  infer_instance

/-- The prune invocations line number `m` triggers (lines 252-260): the
IPs and URLs trackers are pruned exactly when `m` is a multiple of
100000 and the run uses trackers. -/
def pruneIncrement (cfg : RunConfig) (m : Nat) : List (String × Nat × Nat) :=
  if m % 100000 = 0 && cfg.use_top_k && m % PRUNE_EVERY_N_LINES = 0 then
    (let pp := if cfg.memory_mode = "BALANCED" then 5 else 20
     [("IPs", pp, m), ("URLs", pp, m)])
  else []

/-- The prune invocations (tracker name, percent, line number) a run with
`n` input lines performs, in order. -/
def pruneSchedule (cfg : RunConfig) : Nat → List (String × Nat × Nat)
  | 0 => []
  | n + 1 => pruneSchedule cfg n ++ pruneIncrement cfg (n + 1)

end Derived

/-- The `FULL`-mode configuration produced for small files. -/
def fullConfig : RunConfig := ⟨"FULL", ⟨0, 0, 0⟩⟩

/-- The `BALANCED`-mode configuration produced for medium files. -/
def balancedConfig : RunConfig :=
  ⟨"BALANCED", ⟨MAX_UNIQUE_IPS, MAX_UNIQUE_URLS, MAX_UNIQUE_MINUTES⟩⟩

/-- A structurally and semantically valid log line whose status code `100`
passes `parse_status` (range `100..599`) with status group `"1xx"`. -/
def statusOneHundredLine : String :=
  "192.168.1.5 - - [10/Oct/2023:12:00:00 +0300] \"GET /index.html HTTP/1.1\" 100 5"

/-- A structurally matching log line whose timestamp is valid but whose IP
fails `ipaddress` validation. -/
def c6line : String :=
  "999.999.999.999 - - [10/Oct/2023:12:00:00 +0300] \"GET /a HTTP/1.1\" 200 5"

/-- The group dict the structural pattern extracts from `c6line`. -/
def c6groups : Groups :=
  ⟨"999.999.999.999", "-", "-", "10/Oct/2023:12:00:00 +0300",
   "GET /a HTTP/1.1", "200", "5"⟩

/-- A failure map already holding 1000 distinct line texts. -/
def bigFail : List (String × Nat × String) :=
  (List.range 1000).map (fun i => (toString i, 1, "regex_no_match"))

/-- Witness operation list for the heap invariant. -/
def c10ops : List (TrackerOp Nat) :=
  [TrackerOp.add 5, TrackerOp.add 7, TrackerOp.prune 10]

/-- A capacity-1 tracker holding two counted items, one of them outside the
heap. -/
def c2tracker : TopKTracker Nat :=
  applyOps (TopKTracker.init 1) [TrackerOp.add 5, TrackerOp.add 7]

/-- Operation trace for the tie-break analysis of `get_top_k` on a tracker
of capacity 3: item 0 is inserted first, evicted, and re-enters the heap
after a rebuild has reset the stored tie keys of items 1 and 3 to zero. -/
def c3ops : List (TrackerOp Nat) :=
  [TrackerOp.add 0, TrackerOp.add 1, TrackerOp.add 2, TrackerOp.add 3,
   TrackerOp.add 3, TrackerOp.add 1, TrackerOp.add 0]


/-! # Lemmas about the dictionary model -/

section DictThms

variable {α β : Type} [DecidableEq α]

theorem dictFind_cons (b : α) (v : β) (rest : List (α × β)) (a : α) :
    dictFind ((b, v) :: rest) a = if a = b then some v else dictFind rest a := rfl

theorem dictFind_eq_none_iff {d : List (α × β)} {a : α} :
    dictFind d a = none ↔ a ∉ dictKeys d := by
  induction d with
  | nil => simp [dictFind, dictKeys]
  | cons p rest ih =>
    obtain ⟨b, v⟩ := p
    rw [dictFind_cons]
    by_cases h : a = b
    · simp [h, dictKeys]
    · simp [h, ih, dictKeys]

theorem dictFind_isSome_iff {d : List (α × β)} {a : α} :
    (dictFind d a).isSome ↔ a ∈ dictKeys d := by
  induction d with
  | nil => simp [dictFind, dictKeys]
  | cons p rest ih =>
    obtain ⟨b, v⟩ := p
    rw [dictFind_cons]
    by_cases h : a = b
    · simp [h, dictKeys]
    · simp [h, ih, dictKeys]

theorem dictFind_append_of_none {d : List (α × β)} {a : α} (h : dictFind d a = none)
    (l : List (α × β)) : dictFind (d ++ l) a = dictFind l a := by
  induction d with
  | nil => simp
  | cons p rest ih =>
    obtain ⟨b, v⟩ := p
    rw [dictFind_cons] at h
    by_cases hb : a = b
    · simp [hb] at h
    · rw [List.cons_append, dictFind_cons, if_neg hb]
      rw [if_neg hb] at h
      exact ih h

end DictThms

/-! # C7, C8, C5, C1, and the C3 counterexample -/

theorem get_memory_mode_full {b : Nat}
    (h : (b : ℚ) / (1024 * 1024) < (SMALL_FILE_THRESHOLD : ℚ)) :
    get_memory_mode_for_file (some b) = ("FULL", ⟨0, 0, 0⟩, (b : ℚ) / (1024 * 1024)) := by
  simp [get_memory_mode_for_file, h]

theorem get_memory_mode_balanced {b : Nat}
    (h1 : ¬ (b : ℚ) / (1024 * 1024) < (SMALL_FILE_THRESHOLD : ℚ))
    (h2 : (b : ℚ) / (1024 * 1024) < (MEDIUM_FILE_THRESHOLD : ℚ)) :
    get_memory_mode_for_file (some b) =
      ("BALANCED", ⟨MAX_UNIQUE_IPS, MAX_UNIQUE_URLS, MAX_UNIQUE_MINUTES⟩,
        (b : ℚ) / (1024 * 1024)) := by
  simp [get_memory_mode_for_file, h1, h2]

theorem get_memory_mode_aggressive {b : Nat}
    (h1 : ¬ (b : ℚ) / (1024 * 1024) < (SMALL_FILE_THRESHOLD : ℚ))
    (h2 : ¬ (b : ℚ) / (1024 * 1024) < (MEDIUM_FILE_THRESHOLD : ℚ)) :
    get_memory_mode_for_file (some b) =
      ("AGGRESSIVE", ⟨MAX_UNIQUE_IPS / 2, MAX_UNIQUE_URLS / 2, MAX_UNIQUE_MINUTES / 2⟩,
        (b : ℚ) / (1024 * 1024)) := by
  simp [get_memory_mode_for_file, h1, h2]

namespace Claims

/-- C7: `get_memory_mode_for_file` maps a 50MB file to `FULL` with all caps
zero, a 500MB file to `BALANCED` with caps 100000/50000/10000, and a
5000MB file to `AGGRESSIVE`, whose caps are exactly half the `BALANCED`
caps. -/
theorem C7_memory_mode_thresholds :
    (get_memory_mode_for_file (some (50 * 1024 * 1024))).1 = "FULL" ∧
    (get_memory_mode_for_file (some (50 * 1024 * 1024))).2.1 = ⟨0, 0, 0⟩ ∧
    (get_memory_mode_for_file (some (500 * 1024 * 1024))).1 = "BALANCED" ∧
    (get_memory_mode_for_file (some (500 * 1024 * 1024))).2.1 =
      ⟨100000, 50000, 10000⟩ ∧
    (get_memory_mode_for_file (some (5000 * 1024 * 1024))).1 = "AGGRESSIVE" ∧
    (get_memory_mode_for_file (some (5000 * 1024 * 1024))).2.1.max_ips * 2 =
      (get_memory_mode_for_file (some (500 * 1024 * 1024))).2.1.max_ips ∧
    (get_memory_mode_for_file (some (5000 * 1024 * 1024))).2.1.max_urls * 2 =
      (get_memory_mode_for_file (some (500 * 1024 * 1024))).2.1.max_urls ∧
    (get_memory_mode_for_file (some (5000 * 1024 * 1024))).2.1.max_minutes * 2 =
      (get_memory_mode_for_file (some (500 * 1024 * 1024))).2.1.max_minutes := by
  have h50 := get_memory_mode_full (b := 50 * 1024 * 1024)
    (by norm_num [SMALL_FILE_THRESHOLD])
  have h500 := get_memory_mode_balanced (b := 500 * 1024 * 1024)
    (by norm_num [SMALL_FILE_THRESHOLD]) (by norm_num [MEDIUM_FILE_THRESHOLD])
  have h5000 := get_memory_mode_aggressive (b := 5000 * 1024 * 1024)
    (by norm_num [SMALL_FILE_THRESHOLD]) (by norm_num [MEDIUM_FILE_THRESHOLD])
  rw [h50, h500, h5000]
  refine ⟨rfl, rfl, rfl, ?_, rfl, rfl, rfl, rfl⟩
  simp [MAX_UNIQUE_IPS, MAX_UNIQUE_URLS, MAX_UNIQUE_MINUTES]

/-- C8: when the input cannot be opened or read, `analyze_log_optimized`
returns a result carrying only an error: no summary, health-metrics,
traffic-analysis, size-analysis or memory-optimization section is
populated. -/
theorem C8_error_result_no_sections (filepath : String) (file_size_bytes : Option Nat)
    (openResult : OpenResult) (h : ∀ ls, openResult ≠ OpenResult.ok ls) :
    (analyze_log_optimized filepath file_size_bytes openResult).error.isSome = true ∧
    (analyze_log_optimized filepath file_size_bytes openResult).summary = none ∧
    (analyze_log_optimized filepath file_size_bytes openResult).health_metrics = none ∧
    (analyze_log_optimized filepath file_size_bytes openResult).traffic_analysis = none ∧
    (analyze_log_optimized filepath file_size_bytes openResult).size_analysis = none ∧
    (analyze_log_optimized filepath file_size_bytes openResult).memory_optimization
      = none := by
  cases openResult with
  | ok lines => exact absurd rfl (h lines)
  | notFound => exact ⟨rfl, rfl, rfl, rfl, rfl, rfl⟩
  | ioError msg => exact ⟨rfl, rfl, rfl, rfl, rfl, rfl⟩

theorem C8_error_result_no_sections_witness :
    (∀ ls, (OpenResult.notFound : OpenResult) ≠ OpenResult.ok ls) ∧
    ((analyze_log_optimized "access.log" none OpenResult.notFound).error.isSome = true ∧
     (analyze_log_optimized "access.log" none OpenResult.notFound).summary = none ∧
     (analyze_log_optimized "access.log" none OpenResult.notFound).health_metrics = none ∧
     (analyze_log_optimized "access.log" none OpenResult.notFound).traffic_analysis = none ∧
     (analyze_log_optimized "access.log" none OpenResult.notFound).size_analysis = none ∧
     (analyze_log_optimized "access.log" none
        OpenResult.notFound).memory_optimization = none) :=
  ⟨(fun _ h => OpenResult.noConfusion h),
   C8_error_result_no_sections "access.log" none OpenResult.notFound
     (fun _ h => OpenResult.noConfusion h)⟩

set_option maxRecDepth 40000 in
/-- C5, counterexample: with the failure map at its cap of 1000 distinct
line texts, `record_failure` on an already-present line text is a no-op —
the entry count stays at 1 instead of being incremented, contradicting
"increments that entry's count regardless of whether the map has reached
the cap". -/
theorem C5_cap_blocks_increment_counterexample :
    (dictFind bigFail "0").isSome = true ∧
    record_failure bigFail "0" "ip_error" = bigFail ∧
    dictFind (record_failure bigFail "0" "ip_error") "0" = some (1, "regex_no_match") := by
  have hlen : bigFail.length = 1000 := by
    simp [bigFail]
  have hnoop : record_failure bigFail "0" "ip_error" = bigFail := by
    rw [record_failure, hlen]
    norm_num
  refine ⟨?_, hnoop, ?_⟩
  · decide
  · rw [hnoop]
    decide

/-- C5, amended: `record_failure` inserts a new entry with count 1 only
while the map holds fewer than 1000 distinct line texts, and it increments
the count of an already-present line text also only while the map holds
fewer than 1000 entries; once the cap of 1000 is reached it is a no-op
even for present keys. -/
theorem C5_record_failure_cap (fa : List (String × Nat × String)) (line reason : String) :
    (fa.length < 1000 → dictFind fa line = none →
      record_failure fa line reason = fa ++ [(line, 1, reason)] ∧
      dictFind (record_failure fa line reason) line = some (1, reason)) ∧
    (fa.length < 1000 → ∀ c r0, dictFind fa line = some (c, r0) →
      dictFind (record_failure fa line reason) line = some (c + 1, r0)) ∧
    (1000 ≤ fa.length → record_failure fa line reason = fa) := by
  refine ⟨?_, ?_, ?_⟩
  · intro hlen hnone
    have hfa : record_failure fa line reason = fa ++ [(line, 1, reason)] := by
      simp [record_failure, hlen, hnone]
    refine ⟨hfa, ?_⟩
    rw [hfa, dictFind_append_of_none hnone, dictFind_cons, if_pos rfl]
  · intro hlen c r0 hsome
    have hs : (dictFind fa line).isSome = true := by
      rw [hsome]
      rfl
    have hfa : record_failure fa line reason =
        fa.map (fun p => if p.1 = line then (p.1, p.2.1 + 1, p.2.2) else p) := by
      simp [record_failure, hlen, hs]
    rw [hfa]
    clear hfa hs hlen
    induction fa with
    | nil => simp [dictFind] at hsome
    | cons p rest ih =>
      obtain ⟨b, v⟩ := p
      rw [dictFind_cons] at hsome
      by_cases h : line = b
      · subst h
        rw [if_pos rfl] at hsome
        injection hsome with hv
        subst hv
        simp [dictFind_cons]
      · rw [if_neg h] at hsome
        have hb : ¬ b = line := fun hh => h hh.symm
        simp only [List.map_cons, hb, if_false, dictFind_cons, if_neg h]
        exact ih hsome
  · intro hlen
    simp [record_failure, Nat.not_lt.mpr hlen]

theorem C5_record_failure_cap_witness :
    (1000 ≤ bigFail.length) ∧ record_failure bigFail "0" "x" = bigFail :=
  ⟨by simp [bigFail],
   (C5_record_failure_cap bigFail "0" "x").2.2 (by simp [bigFail])⟩

/-- C1: the claimed invariant `total_requests = sum of status-group
counters` with all-or-nothing line accounting is the clear intent of the
staged validation (`temp_*` values plus `line_is_valid`), but the code
breaks it for statuses `100..199`: `parse_status` accepts them (range
`100..599`) and derives group `"1xx"`, which is missing from the
`status_groups` dict, so `status_groups[temp_group] += 1` raises `KeyError`
after `total_requests`, the IP/URL/minute aggregates and `statuses` were
already incremented; the handler then records the line as an
`unexpected_error` failure.  Evaluated on one such line:
`total_requests = 1` while the status-group counters sum to 0. -/
theorem C1_partial_count_at_status_100 :
    (runLines fullConfig [statusOneHundredLine]).total_requests = 1 ∧
    ((runLines fullConfig [statusOneHundredLine]).status_groups.map Prod.snd).sum = 0 ∧
    counterGet (runLines fullConfig [statusOneHundredLine]).statuses "100" = 1 ∧
    counterGet (runLines fullConfig [statusOneHundredLine]).ips_counter "192.168.1.5" = 1 ∧
    dictFind (runLines fullConfig [statusOneHundredLine]).failed_attempts
      statusOneHundredLine = some (1, "unexpected_error") ∧
    (get_memory_mode_for_file (some 1000)).1 = fullConfig.memory_mode ∧
    (get_memory_mode_for_file (some 1000)).2.1 = fullConfig.limits := by
  have hm := get_memory_mode_full (b := 1000) (by norm_num [SMALL_FILE_THRESHOLD])
  rw [hm]
  exact ⟨by decide, by decide, by decide, by decide, by decide, rfl, rfl⟩

/-- C3, counterexample: after the operation trace `c3ops` on a capacity-3
tracker, items 0, 1 and 3 are tied at count 2, but `get_top_k 3` returns
item 0 last even though it was inserted first — `_update_heap` rebuilt the
entries of items 1 and 3 with tie key 0, while item 0 re-entered the heap
later with tie key 7, so ties are not broken by insertion order. -/
theorem C3_tie_break_counterexample :
    (applyOps (TopKTracker.init 3) c3ops).get_top_k 3 = [(1, 2), (3, 2), (0, 2)] ∧
    firstAddIndex c3ops (0 : Nat) = 0 ∧
    firstAddIndex c3ops (1 : Nat) = 1 ∧
    firstAddIndex c3ops (3 : Nat) = 3 ∧
    ¬ specTieOrdered c3ops ((applyOps (TopKTracker.init 3) c3ops).get_top_k 3) := by
  decide

end Claims

/-! # Tracker lemmas: counters -/

section CounterThms

variable {α : Type} [DecidableEq α]

theorem dictFind_append {β : Type} (d l : List (α × β)) (a : α) :
    dictFind (d ++ l) a =
      match dictFind d a with
      | some v => some v
      | none => dictFind l a := by
  induction d with
  | nil => rfl
  | cons p rest ih =>
    obtain ⟨b, v⟩ := p
    by_cases h : a = b
    · simp [dictFind_cons, h]
    · simp [dictFind_cons, h, ih]

theorem mem_of_dictFind_eq_some {β : Type} {d : List (α × β)} {x : α} {v : β}
    (h : dictFind d x = some v) : (x, v) ∈ d := by
  induction d with
  | nil => simp [dictFind] at h
  | cons p rest ih =>
    obtain ⟨b, w⟩ := p
    rw [dictFind_cons] at h
    by_cases hb : x = b
    · rw [if_pos hb] at h
      injection h with hw
      subst hb
      subst hw
      exact List.mem_cons_self _ _
    · rw [if_neg hb] at h
      exact List.mem_cons_of_mem _ (ih h)

theorem counterGet_of_find_some {d : List (α × Nat)} {x : α} {v : Nat}
    (h : dictFind d x = some v) : counterGet d x = v := by
  unfold counterGet
  rw [h]
  rfl

theorem find_eq_get_of_isSome {d : List (α × Nat)} {x : α}
    (h : (dictFind d x).isSome) : dictFind d x = some (counterGet d x) := by
  cases hf : dictFind d x with
  | none => rw [hf] at h; cases h
  | some v => rw [counterGet_of_find_some hf]

theorem incMap_head (a b : α) (v : Nat) :
    (fun p : α × Nat => if p.1 = a then (p.1, p.2 + 1) else p) (b, v)
      = if b = a then (b, v + 1) else (b, v) := by
  by_cases hb : b = a <;> simp [hb]

theorem dictFind_incMap_self (d : List (α × Nat)) (a : α) :
    dictFind (d.map (fun p => if p.1 = a then (p.1, p.2 + 1) else p)) a
      = (dictFind d a).map (fun v => v + 1) := by
  induction d with
  | nil => rfl
  | cons p rest ih =>
    obtain ⟨b, v⟩ := p
    rw [List.map_cons]
    dsimp only
    by_cases hb : b = a
    · subst hb
      rw [if_pos rfl, dictFind_cons, dictFind_cons, if_pos rfl, if_pos rfl]
      rfl
    · have hab : ¬ a = b := fun hh => hb hh.symm
      rw [if_neg hb, dictFind_cons, dictFind_cons, if_neg hab, if_neg hab]
      exact ih

theorem dictFind_incMap_ne (d : List (α × Nat)) {a x : α} (h : x ≠ a) :
    dictFind (d.map (fun p => if p.1 = a then (p.1, p.2 + 1) else p)) x
      = dictFind d x := by
  induction d with
  | nil => rfl
  | cons p rest ih =>
    obtain ⟨b, v⟩ := p
    rw [List.map_cons]
    dsimp only
    by_cases hb : b = a
    · subst hb
      rw [if_pos rfl, dictFind_cons, dictFind_cons, if_neg h, if_neg h]
      exact ih
    · rw [if_neg hb, dictFind_cons, dictFind_cons]
      by_cases hxb : x = b
      · rw [if_pos hxb, if_pos hxb]
      · rw [if_neg hxb, if_neg hxb]
        exact ih

theorem dictFind_counterInc_self (d : List (α × Nat)) (a : α) :
    dictFind (counterInc d a) a = some (counterGet d a + 1) := by
  unfold counterInc
  by_cases h : (dictFind d a).isSome
  · rw [if_pos h, dictFind_incMap_self, find_eq_get_of_isSome h]
    rfl
  · rw [if_neg h]
    have hn : dictFind d a = none := by
      cases hf : dictFind d a
      · rfl
      · rw [hf] at h; cases h rfl
    rw [dictFind_append_of_none hn, dictFind_cons, if_pos rfl]
    unfold counterGet
    rw [hn]
    rfl

theorem dictFind_counterInc_ne (d : List (α × Nat)) {a x : α} (h : x ≠ a) :
    dictFind (counterInc d a) x = dictFind d x := by
  unfold counterInc
  by_cases hs : (dictFind d a).isSome
  · rw [if_pos hs, dictFind_incMap_ne _ h]
  · rw [if_neg hs, dictFind_append]
    cases hf : dictFind d x with
    | none =>
      rw [dictFind_cons, if_neg h]
      rfl
    | some v => rfl

theorem counterGet_counterInc_self (d : List (α × Nat)) (a : α) :
    counterGet (counterInc d a) a = counterGet d a + 1 := by
  unfold counterGet
  rw [dictFind_counterInc_self]
  rfl

theorem counterGet_counterInc_ne (d : List (α × Nat)) {a x : α} (h : x ≠ a) :
    counterGet (counterInc d a) x = counterGet d x := by
  unfold counterGet
  rw [dictFind_counterInc_ne _ h]

theorem find_isSome_counterInc {d : List (α × Nat)} {x : α}
    (h : (dictFind d x).isSome) (a : α) :
    (dictFind (counterInc d a) x).isSome := by
  by_cases hxa : x = a
  · subst hxa
    rw [dictFind_counterInc_self]
    rfl
  · rw [dictFind_counterInc_ne _ hxa]
    exact h

theorem dictKeys_counterInc_of_isSome {d : List (α × Nat)} {a : α}
    (h : (dictFind d a).isSome) : dictKeys (counterInc d a) = dictKeys d := by
  unfold counterInc
  rw [if_pos h]
  unfold dictKeys
  rw [List.map_map]
  apply List.map_congr_left
  intro p _
  by_cases hp : p.1 = a <;> simp [hp]

theorem dictKeys_counterInc_of_none {d : List (α × Nat)} {a : α}
    (h : dictFind d a = none) : dictKeys (counterInc d a) = dictKeys d ++ [a] := by
  unfold counterInc
  rw [if_neg (by rw [h]; intro hh; cases hh)]
  simp [dictKeys]

theorem keysNodup_counterInc {d : List (α × Nat)} (hd : (dictKeys d).Nodup) (a : α) :
    (dictKeys (counterInc d a)).Nodup := by
  by_cases h : (dictFind d a).isSome
  · rw [dictKeys_counterInc_of_isSome h]
    exact hd
  · have hn : dictFind d a = none := by
      cases hf : dictFind d a
      · rfl
      · rw [hf] at h; cases h rfl
    rw [dictKeys_counterInc_of_none hn]
    have hna : a ∉ dictKeys d := dictFind_eq_none_iff.mp hn
    simp [List.nodup_append, hd, hna]

theorem counterInc_val_ge_one {d : List (α × Nat)} (hd : ∀ p ∈ d, 1 ≤ p.2) (a : α) :
    ∀ p ∈ counterInc d a, 1 ≤ p.2 := by
  intro p hp
  unfold counterInc at hp
  by_cases h : (dictFind d a).isSome
  · rw [if_pos h] at hp
    obtain ⟨q, hq, hpq⟩ := List.mem_map.mp hp
    by_cases hqa : q.1 = a
    · rw [if_pos hqa] at hpq
      rw [← hpq]
      have := hd q hq
      omega
    · rw [if_neg hqa] at hpq
      rw [← hpq]
      exact hd q hq
  · rw [if_neg h] at hp
    rcases List.mem_append.mp hp with h1 | h1
    · exact hd p h1
    · simp only [List.mem_singleton] at h1
      rw [h1]

end CounterThms

/-! # Tracker lemmas: heap and well-formedness -/

section HeapThms

variable {α : Type} [LinearOrder α]

theorem add_counts (t : TopKTracker α) (a : α) :
    (t.add a).counts = counterInc t.counts a := rfl

theorem add_k (t : TopKTracker α) (a : α) : (t.add a).k = t.k := rfl

theorem add_heap (t : TopKTracker α) (a : α) :
    (t.add a).heap =
      if t.heap.any (fun e => decide (e.2.2 = a)) then
        updateHeapList (counterInc t.counts a) t.heap
      else if t.heap.length < t.k then
        List.orderedInsert entryLE
          (counterGet (counterInc t.counts a) a, t.insertion_counter + 1, a) t.heap
      else
        match t.heap with
        | [] => t.heap
        | root :: rest =>
          if root.1 < counterGet (counterInc t.counts a) a then
            List.orderedInsert entryLE
              (counterGet (counterInc t.counts a) a, t.insertion_counter + 1, a) rest
          else root :: rest := rfl

theorem mem_updateHeapList {counts : List (α × Nat)} {heap : List (Nat × Nat × α)}
    {e : Nat × Nat × α} :
    e ∈ updateHeapList counts heap ↔
      ∃ f ∈ heap, e = (counterGet counts f.2.2, 0, f.2.2) := by
  unfold updateHeapList
  rw [List.mem_insertionSort, List.mem_map]
  constructor
  · rintro ⟨f, hf, rfl⟩
    exact ⟨f, hf, rfl⟩
  · rintro ⟨f, hf, rfl⟩
    exact ⟨f, hf, rfl⟩

theorem length_updateHeapList (counts : List (α × Nat)) (heap : List (Nat × Nat × α)) :
    (updateHeapList counts heap).length = heap.length := by
  unfold updateHeapList
  rw [List.length_insertionSort, List.length_map]

theorem items_updateHeapList_perm (counts : List (α × Nat)) (heap : List (Nat × Nat × α)) :
    List.Perm ((updateHeapList counts heap).map (fun e => e.2.2))
      (heap.map (fun e => e.2.2)) := by
  unfold updateHeapList
  refine ((List.perm_insertionSort _ _).map _).trans ?_
  rw [List.map_map]
  exact List.Perm.refl _

theorem mem_of_any_eq {t : TopKTracker α} {a : α}
    (h : (t.heap.any fun e => decide (e.2.2 = a)) = true) : a ∈ heapItems t := by
  rw [List.any_eq_true] at h
  obtain ⟨e, he, hee⟩ := h
  rw [decide_eq_true_eq] at hee
  exact List.mem_map.mpr ⟨e, he, hee⟩

theorem not_mem_of_any_ne {t : TopKTracker α} {a : α}
    (h : ¬ (t.heap.any fun e => decide (e.2.2 = a)) = true) : a ∉ heapItems t := by
  intro hmem
  apply h
  rw [List.any_eq_true]
  obtain ⟨e, he, hee⟩ := List.mem_map.mp hmem
  exact ⟨e, he, decide_eq_true hee⟩

/-- The four possible heap transitions of `add`: rebuild (item already
tracked), plain insert (heap not full), evict-and-insert (count beats the
heap minimum), or no change. -/
theorem add_heap_cases (t : TopKTracker α) (a : α) :
    ((t.add a).heap = updateHeapList (counterInc t.counts a) t.heap ∧
      a ∈ heapItems t) ∨
    ((t.add a).heap = List.orderedInsert entryLE
        (counterGet (counterInc t.counts a) a, t.insertion_counter + 1, a) t.heap ∧
      a ∉ heapItems t ∧ t.heap.length < t.k) ∨
    (∃ root rest, t.heap = root :: rest ∧
      (t.add a).heap = List.orderedInsert entryLE
        (counterGet (counterInc t.counts a) a, t.insertion_counter + 1, a) rest ∧
      a ∉ heapItems t) ∨
    ((t.add a).heap = t.heap ∧ a ∉ heapItems t) := by
  rw [add_heap]
  by_cases hin : (t.heap.any fun e => decide (e.2.2 = a)) = true
  · exact Or.inl ⟨by rw [if_pos hin], mem_of_any_eq hin⟩
  · have hna : a ∉ heapItems t := not_mem_of_any_ne hin
    rw [if_neg hin]
    by_cases hlt : t.heap.length < t.k
    · exact Or.inr (Or.inl ⟨by rw [if_pos hlt], hna, hlt⟩)
    · rw [if_neg hlt]
      cases hh : t.heap with
      | nil => exact Or.inr (Or.inr (Or.inr ⟨rfl, hna⟩))
      | cons root rest =>
        by_cases hroot : root.1 < counterGet (counterInc t.counts a) a
        · refine Or.inr (Or.inr (Or.inl ⟨root, rest, rfl, ?_, hna⟩))
          dsimp only
          rw [if_pos hroot]
        · refine Or.inr (Or.inr (Or.inr ⟨?_, hna⟩))
          dsimp only
          rw [if_neg hroot]

theorem add_heap_length {t : TopKTracker α} (hlen : t.heap.length ≤ t.k) (a : α) :
    (t.add a).heap.length ≤ t.k := by
  rcases add_heap_cases t a with ⟨he, _⟩ | ⟨he, _, hlt⟩ | ⟨root, rest, hh, he, _⟩ | ⟨he, _⟩
  · rw [he, length_updateHeapList]
    exact hlen
  · rw [he, List.orderedInsert_length]
    exact hlt
  · rw [he, List.orderedInsert_length]
    rw [hh] at hlen
    simpa using hlen
  · rw [he]
    exact hlen

theorem add_items_nodup {t : TopKTracker α} (hnodup : (heapItems t).Nodup) (a : α) :
    (heapItems (t.add a)).Nodup := by
  unfold heapItems at *
  rcases add_heap_cases t a with ⟨he, _⟩ | ⟨he, hna, _⟩ | ⟨root, rest, hh, he, hna⟩ | ⟨he, _⟩
  · rw [he]
    exact ((items_updateHeapList_perm _ _).nodup_iff).mpr hnodup
  · rw [he]
    have hperm := (List.perm_orderedInsert entryLE
      (counterGet (counterInc t.counts a) a, t.insertion_counter + 1, a) t.heap).map
      (fun e : Nat × Nat × α => e.2.2)
    rw [hperm.nodup_iff, List.map_cons, List.nodup_cons]
    exact ⟨hna, hnodup⟩
  · rw [he]
    have hperm := (List.perm_orderedInsert entryLE
      (counterGet (counterInc t.counts a) a, t.insertion_counter + 1, a) rest).map
      (fun e : Nat × Nat × α => e.2.2)
    rw [hperm.nodup_iff, List.map_cons, List.nodup_cons]
    rw [hh, List.map_cons, List.nodup_cons] at hnodup
    constructor
    · intro hmem
      apply hna
      unfold heapItems
      rw [hh, List.map_cons]
      exact List.mem_cons_of_mem _ hmem
    · exact hnodup.2
  · rw [he]
    exact hnodup

theorem add_stored {t : TopKTracker α}
    (hstored : ∀ e ∈ t.heap, dictFind t.counts e.2.2 = some e.1) (a : α) :
    ∀ e ∈ (t.add a).heap, dictFind (t.add a).counts e.2.2 = some e.1 := by
  have hold : ∀ x, x ≠ a → ∀ e ∈ t.heap, e.2.2 = x →
      dictFind (counterInc t.counts a) x = some e.1 := by
    intro x hx e he hex
    rw [dictFind_counterInc_ne _ hx, ← hex]
    exact hstored e he
  have hnew : dictFind (counterInc t.counts a) a
      = some (counterGet (counterInc t.counts a) a) := by
    rw [dictFind_counterInc_self, counterGet_counterInc_self]
  have holdmem : a ∉ heapItems t → ∀ e ∈ t.heap,
      dictFind (counterInc t.counts a) e.2.2 = some e.1 := by
    intro hna e he
    have hne : e.2.2 ≠ a := by
      intro hh
      exact hna (List.mem_map.mpr ⟨e, he, hh⟩)
    exact hold e.2.2 hne e he rfl
  intro e he
  rw [add_counts]
  rcases add_heap_cases t a with ⟨hp, _⟩ | ⟨hp, hna, _⟩ | ⟨root, rest, hh, hp, hna⟩ | ⟨hp, hna⟩
  · rw [hp] at he
    obtain ⟨f, hf, rfl⟩ := mem_updateHeapList.mp he
    have hsf := hstored f hf
    have hsome : (dictFind (counterInc t.counts a) f.2.2).isSome :=
      find_isSome_counterInc (by rw [hsf]; rfl) a
    exact find_eq_get_of_isSome hsome
  · rw [hp] at he
    rcases (List.mem_orderedInsert _).mp he with he1 | he1
    · rw [he1]
      exact hnew
    · exact holdmem hna e he1
  · rw [hp] at he
    rcases (List.mem_orderedInsert _).mp he with he1 | he1
    · rw [he1]
      exact hnew
    · exact holdmem hna e (by rw [hh]; exact List.mem_cons_of_mem _ he1)
  · rw [hp] at he
    exact holdmem hna e he

theorem WF_init (k : Nat) : WF (TopKTracker.init (α := α) k) := by
  refine ⟨?_, ?_, ?_, ?_, ?_⟩ <;> simp [TopKTracker.init, dictKeys, heapItems, WF]

theorem WF_add {t : TopKTracker α} (h : WF t) (a : α) : WF (t.add a) := by
  obtain ⟨hkeys, hval, hlen, hnodup, hstored⟩ := h
  refine ⟨?_, ?_, ?_, ?_, ?_⟩
  · rw [add_counts]
    exact keysNodup_counterInc hkeys a
  · rw [add_counts]
    exact counterInc_val_ge_one hval a
  · rw [add_k]
    exact add_heap_length hlen a
  · exact add_items_nodup hnodup a
  · exact add_stored hstored a

theorem prune_noop_of_le {t : TopKTracker α} (h : t.counts.length ≤ t.k) (percent : Nat) :
    t.prune percent = t := by
  unfold TopKTracker.prune
  rw [if_pos h]

theorem prune_noop_of_no_nonheap {t : TopKTracker α} (h : nonHeapKeys t = [])
    (percent : Nat) : t.prune percent = t := by
  unfold TopKTracker.prune
  by_cases hle : t.counts.length ≤ t.k
  · rw [if_pos hle]
  · rw [if_neg hle]
    have he : ((dictKeys t.counts).filter
        (fun a => decide (a ∉ heapItems t))).isEmpty = true := by
      unfold nonHeapKeys at h
      rw [h]
      rfl
    simp only [he]
    rfl

theorem prune_eq_of_gt {t : TopKTracker α} (h : ¬ t.counts.length ≤ t.k)
    (hne : ¬ nonHeapKeys t = []) (percent : Nat) :
    t.prune percent = ⟨t.k,
      t.counts.filter (fun p => decide (p.1 ∉ pruneRemoved t percent)), t.heap,
      t.insertion_counter, t.total_adds⟩ := by
  unfold TopKTracker.prune
  rw [if_neg h]
  have hemp : ((dictKeys t.counts).filter
      (fun a => decide (a ∉ heapItems t))).isEmpty = false := by
    cases hl : (dictKeys t.counts).filter (fun a => decide (a ∉ heapItems t)) with
    | nil =>
      unfold nonHeapKeys at hne
      exact absurd hl hne
    | cons x xs => rfl
  simp only [hemp]
  rfl

end HeapThms

/-! # Prune preservation and reachable-state well-formedness -/

section PruneThms

variable {α : Type} [LinearOrder α]

theorem dictKeys_filterKey {β : Type} (Q : α → Bool) (d : List (α × β)) :
    dictKeys (d.filter (fun p => Q p.1)) = (dictKeys d).filter Q := by
  induction d with
  | nil => rfl
  | cons p rest ih =>
    obtain ⟨b, v⟩ := p
    unfold dictKeys at ih ⊢
    by_cases h : Q b
    · rw [List.filter_cons_of_pos (by simpa using h), List.map_cons, List.map_cons,
        List.filter_cons_of_pos (by simpa using h), ih]
    · rw [List.filter_cons_of_neg (by simpa using h), List.map_cons,
        List.filter_cons_of_neg (by simpa using h), ih]

theorem dictFind_filterKey_of_true {β : Type} {Q : α → Bool} {d : List (α × β)} {x : α}
    (h : Q x = true) : dictFind (d.filter (fun p => Q p.1)) x = dictFind d x := by
  induction d with
  | nil => rfl
  | cons p rest ih =>
    obtain ⟨b, v⟩ := p
    by_cases hxb : x = b
    · subst hxb
      rw [List.filter_cons_of_pos (by simpa using h), dictFind_cons, if_pos rfl,
        dictFind_cons, if_pos rfl]
    · by_cases hq : Q b
      · rw [List.filter_cons_of_pos (by simpa using hq), dictFind_cons, if_neg hxb,
          dictFind_cons, if_neg hxb]
        exact ih
      · rw [List.filter_cons_of_neg (by simpa using hq), dictFind_cons, if_neg hxb]
        exact ih

theorem pruneRemoved_subset {t : TopKTracker α} {percent : Nat} :
    ∀ x ∈ pruneRemoved t percent, x ∈ nonHeapKeys t := by
  intro x hx
  unfold pruneRemoved at hx
  obtain ⟨q, hq, rfl⟩ := List.mem_map.mp hx
  have hq2 := List.mem_of_mem_take hq
  rw [List.mem_insertionSort] at hq2
  obtain ⟨b, hb, rfl⟩ := List.mem_map.mp hq2
  exact hb

theorem nonHeapKeys_not_heap {t : TopKTracker α} {x : α} (h : x ∈ nonHeapKeys t) :
    x ∉ heapItems t := by
  unfold nonHeapKeys at h
  have hq := List.of_mem_filter h
  simpa using hq

theorem nonHeapKeys_mem_keys {t : TopKTracker α} {x : α} (h : x ∈ nonHeapKeys t) :
    x ∈ dictKeys t.counts := by
  unfold nonHeapKeys at h
  exact List.mem_of_mem_filter h

theorem heap_item_not_removed {t : TopKTracker α} {percent : Nat} {x : α}
    (h : x ∈ heapItems t) : x ∉ pruneRemoved t percent := by
  intro hx
  exact nonHeapKeys_not_heap (pruneRemoved_subset x hx) h

theorem WF_prune {t : TopKTracker α} (h : WF t) (percent : Nat) : WF (t.prune percent) := by
  by_cases hle : t.counts.length ≤ t.k
  · rw [prune_noop_of_le hle]
    exact h
  · by_cases hne : nonHeapKeys t = []
    · rw [prune_noop_of_no_nonheap hne]
      exact h
    · rw [prune_eq_of_gt hle hne percent]
      obtain ⟨hkeys, hval, hlen, hnodup, hstored⟩ := h
      refine ⟨?_, ?_, hlen, hnodup, ?_⟩
      · show (dictKeys (t.counts.filter
          (fun p => decide (p.1 ∉ pruneRemoved t percent)))).Nodup
        rw [dictKeys_filterKey (fun a => decide (a ∉ pruneRemoved t percent))]
        exact hkeys.filter _
      · intro p hp
        exact hval p (List.mem_of_mem_filter hp)
      · intro e he
        have hxh : e.2.2 ∈ heapItems t := List.mem_map.mpr ⟨e, he, rfl⟩
        have hnr : e.2.2 ∉ pruneRemoved t percent := heap_item_not_removed hxh
        show dictFind (t.counts.filter
          (fun p => decide (p.1 ∉ pruneRemoved t percent))) e.2.2 = some e.1
        rw [dictFind_filterKey_of_true (Q := fun a => decide (a ∉ pruneRemoved t percent))
          (decide_eq_true hnr)]
        exact hstored e he

theorem WF_applyOp {t : TopKTracker α} (h : WF t) (op : TrackerOp α) :
    WF (applyOp t op) := by
  cases op with
  | add a => exact WF_add h a
  | prune p => exact WF_prune h p

theorem applyOps_cons (t : TopKTracker α) (op : TrackerOp α) (ops : List (TrackerOp α)) :
    applyOps t (op :: ops) = applyOps (applyOp t op) ops := rfl

theorem WF_applyOps (t : TopKTracker α) (h : WF t) (ops : List (TrackerOp α)) :
    WF (applyOps t ops) := by
  induction ops generalizing t with
  | nil => exact h
  | cons op rest ih =>
    rw [applyOps_cons]
    exact ih _ (WF_applyOp h op)

end PruneThms

/-! # Capacity preservation -/

section CapThms

variable {α : Type} [LinearOrder α]

theorem prune_k (t : TopKTracker α) (percent : Nat) : (t.prune percent).k = t.k := by
  by_cases hle : t.counts.length ≤ t.k
  · rw [prune_noop_of_le hle]
  · by_cases hne : nonHeapKeys t = []
    · rw [prune_noop_of_no_nonheap hne]
    · rw [prune_eq_of_gt hle hne]

theorem applyOps_k (t : TopKTracker α) (ops : List (TrackerOp α)) :
    (applyOps t ops).k = t.k := by
  induction ops generalizing t with
  | nil => rfl
  | cons op rest ih =>
    rw [applyOps_cons, ih]
    cases op with
    | add a => rfl
    | prune p => exact prune_k t p

end CapThms

namespace Claims

/-- C10: after any sequence of `add`/`prune` operations on a fresh tracker
of capacity `k`, the candidate heap holds at most `k` entries, and every
heap entry's item is a key of the exact count map with a positive count. -/
theorem C10_heap_bounded_and_counted {α : Type} [LinearOrder α] (k : Nat)
    (ops : List (TrackerOp α)) :
    (applyOps (TopKTracker.init k) ops).heap.length ≤ k ∧
    ∀ e ∈ (applyOps (TopKTracker.init k) ops).heap,
      e.2.2 ∈ dictKeys (applyOps (TopKTracker.init k) ops).counts ∧
      0 < counterGet (applyOps (TopKTracker.init k) ops).counts e.2.2 := by
  obtain ⟨hkeys, hval, hlen, hnodup, hstored⟩ := WF_applyOps _ (WF_init k) ops
  constructor
  · have hk := applyOps_k (TopKTracker.init (α := α) k) ops
    rw [hk] at hlen
    exact hlen
  · intro e he
    have hf := hstored e he
    constructor
    · rw [← dictFind_isSome_iff, hf]
      rfl
    · have hmem := mem_of_dictFind_eq_some hf
      have hge := hval _ hmem
      rw [counterGet_of_find_some hf]
      exact hge

theorem C10_heap_bounded_and_counted_witness :
    (applyOps (TopKTracker.init 2) c10ops).heap.length ≤ 2 ∧
    (((1, 1, 5) : Nat × Nat × Nat).2.2 ∈
      dictKeys (applyOps (TopKTracker.init 2) c10ops).counts ∧
     0 < counterGet (applyOps (TopKTracker.init 2) c10ops).counts
       ((1, 1, 5) : Nat × Nat × Nat).2.2) :=
  ⟨(C10_heap_bounded_and_counted 2 c10ops).1,
   (C10_heap_bounded_and_counted 2 c10ops).2 (1, 1, 5) (by decide)⟩

end Claims

/-! # Prune deletion count and minimality -/

section PruneCount

variable {α : Type} [LinearOrder α]

theorem length_filter_del {l rs : List α} (hl : l.Nodup) (hrs : rs.Nodup)
    (hsub : ∀ x ∈ rs, x ∈ l) :
    (l.filter (fun a => decide (a ∉ rs))).length + rs.length = l.length := by
  have hperm : List.Perm (l.filter (fun a => decide (a ∈ rs))) rs := by
    rw [List.perm_ext_iff_of_nodup (hl.filter _) hrs]
    intro x
    rw [List.mem_filter]
    constructor
    · intro hx
      simpa using hx.2
    · intro hx
      exact ⟨hsub x hx, by simpa using hx⟩
  have hsplit := List.filter_append_perm (fun a => decide (a ∈ rs)) l
  have hlen := hsplit.length_eq
  rw [List.length_append] at hlen
  have hnot : l.filter (fun a => !decide (a ∈ rs)) = l.filter (fun a => decide (a ∉ rs)) := by
    apply List.filter_congr
    intro x _
    simp
  rw [hnot, hperm.length_eq] at hlen
  omega

theorem nonHeapKeys_nodup {t : TopKTracker α} (hkeys : (dictKeys t.counts).Nodup) :
    (nonHeapKeys t).Nodup := hkeys.filter _

theorem pruneRemoved_fst_perm (t : TopKTracker α) :
    List.Perm ((List.insertionSort countLE ((nonHeapKeys t).map
      (fun a => (a, counterGet t.counts a)))).map Prod.fst) (nonHeapKeys t) := by
  refine ((List.perm_insertionSort _ _).map _).trans ?_
  rw [List.map_map]
  have hid : (Prod.fst ∘ fun a : α => (a, counterGet t.counts a)) = id := by
    funext a
    rfl
  rw [hid, List.map_id]

theorem pruneRemoved_nodup {t : TopKTracker α} {percent : Nat}
    (hkeys : (dictKeys t.counts).Nodup) : (pruneRemoved t percent).Nodup := by
  unfold pruneRemoved
  rw [List.map_take]
  exact ((pruneRemoved_fst_perm t).nodup_iff.mpr (nonHeapKeys_nodup hkeys)).sublist
    (List.take_sublist _ _)

theorem pruneRemoved_length {t : TopKTracker α} {percent : Nat}
    (hne : nonHeapKeys t ≠ []) (hpct : percent ≤ 100) :
    (pruneRemoved t percent).length = max ((nonHeapKeys t).length * percent / 100) 1 := by
  unfold pruneRemoved
  rw [List.length_map, List.length_take, List.length_insertionSort, List.length_map]
  have hL : 1 ≤ (nonHeapKeys t).length := List.length_pos.mpr hne
  have h1 : (nonHeapKeys t).length * percent / 100 ≤ (nonHeapKeys t).length := by
    have h2 : (nonHeapKeys t).length * percent ≤ (nonHeapKeys t).length * 100 :=
      Nat.mul_le_mul_left _ hpct
    have h3 : (nonHeapKeys t).length * percent / 100
        ≤ (nonHeapKeys t).length * 100 / 100 := by
      apply Nat.div_le_div_right
      exact h2
    rw [Nat.mul_div_cancel _ (by omega)] at h3
    exact h3
  omega

theorem pruneRemoved_minimal {t : TopKTracker α} {percent : Nat} :
    ∀ x ∈ pruneRemoved t percent, ∀ y ∈ nonHeapKeys t, y ∉ pruneRemoved t percent →
      counterGet t.counts x ≤ counterGet t.counts y := by
  intro x hx y hy hyn
  unfold pruneRemoved at hx hyn
  obtain ⟨q, hq, hqx⟩ := List.mem_map.mp hx
  have hqs := List.mem_of_mem_take hq
  rw [List.mem_insertionSort] at hqs
  obtain ⟨a1, ha1m, ha1q⟩ := List.mem_map.mp hqs
  have hyw : (y, counterGet t.counts y) ∈ (nonHeapKeys t).map
      (fun a => (a, counterGet t.counts a)) := List.mem_map.mpr ⟨y, hy, rfl⟩
  have hys : (y, counterGet t.counts y) ∈ List.insertionSort countLE
      ((nonHeapKeys t).map (fun a => (a, counterGet t.counts a))) :=
    (List.mem_insertionSort _).mpr hyw
  have hynott : (y, counterGet t.counts y) ∉ (List.insertionSort countLE
      ((nonHeapKeys t).map (fun a => (a, counterGet t.counts a)))).take
        (max ((nonHeapKeys t).length * percent / 100) 1) := by
    intro hmem
    exact hyn (List.mem_map.mpr ⟨_, hmem, rfl⟩)
  have hydrop : (y, counterGet t.counts y) ∈ (List.insertionSort countLE
      ((nonHeapKeys t).map (fun a => (a, counterGet t.counts a)))).drop
        (max ((nonHeapKeys t).length * percent / 100) 1) := by
    have hsplit := List.take_append_drop
      (max ((nonHeapKeys t).length * percent / 100) 1)
      (List.insertionSort countLE ((nonHeapKeys t).map
        (fun a => (a, counterGet t.counts a))))
    rw [← hsplit] at hys
    rcases List.mem_append.mp hys with h1 | h1
    · exact absurd h1 hynott
    · exact h1
  have hsorted : List.Pairwise countLE (List.insertionSort countLE
      ((nonHeapKeys t).map (fun a => (a, counterGet t.counts a)))) :=
    List.sorted_insertionSort countLE _
  rw [← List.take_append_drop (max ((nonHeapKeys t).length * percent / 100) 1)
    (List.insertionSort countLE ((nonHeapKeys t).map
      (fun a => (a, counterGet t.counts a)))), List.pairwise_append] at hsorted
  have hle := hsorted.2.2 q hq _ hydrop
  unfold countLE at hle
  have hq2 : q.2 = counterGet t.counts x := by
    rw [← ha1q] at hqx ⊢
    dsimp only at hqx ⊢
    rw [hqx]
  rw [hq2] at hle
  exact hle

end PruneCount

namespace Claims

/-- C2: for a tracker state with distinct count-map keys and a percentage
of at most 100 (the call sites use 5, 10 and 20), `prune(percent)` never
deletes the count-map entry of a current heap member; it is a no-op when
the count map holds at most `k` items; and when the count map holds more
than `k` items and at least one non-heap item exists, it deletes exactly
`max(1, percent% of the non-heap items)` entries — hence at least one —
all of them non-heap items whose counts are no larger than the count of
any surviving non-heap item. -/
theorem C2_prune_frame {α : Type} [LinearOrder α] (t : TopKTracker α) (percent : Nat)
    (hkeys : (dictKeys t.counts).Nodup) (hpct : percent ≤ 100) :
    (∀ a ∈ heapItems t, dictFind (t.prune percent).counts a = dictFind t.counts a) ∧
    (t.counts.length ≤ t.k → t.prune percent = t) ∧
    (t.k < t.counts.length → nonHeapKeys t ≠ [] →
      ((t.prune percent).counts.length
          + max ((nonHeapKeys t).length * percent / 100) 1 = t.counts.length ∧
       (t.prune percent).counts.length < t.counts.length ∧
       (∀ a, a ∈ dictKeys t.counts → a ∉ dictKeys (t.prune percent).counts →
         a ∈ nonHeapKeys t) ∧
       (∀ a b, a ∈ dictKeys t.counts → a ∉ dictKeys (t.prune percent).counts →
         b ∈ nonHeapKeys t → b ∈ dictKeys (t.prune percent).counts →
         counterGet t.counts a ≤ counterGet t.counts b))) := by
  refine ⟨?_, fun hle => prune_noop_of_le hle percent, ?_⟩
  · intro a ha
    by_cases hle : t.counts.length ≤ t.k
    · rw [prune_noop_of_le hle]
    · by_cases hne : nonHeapKeys t = []
      · rw [prune_noop_of_no_nonheap hne]
      · rw [prune_eq_of_gt hle hne]
        exact dictFind_filterKey_of_true
          (Q := fun x => decide (x ∉ pruneRemoved t percent))
          (decide_eq_true (heap_item_not_removed ha))
  · intro hgt hne
    have hle : ¬ t.counts.length ≤ t.k := not_le.mpr hgt
    have hpe := prune_eq_of_gt hle hne percent
    have hkeysp : dictKeys (t.prune percent).counts =
        (dictKeys t.counts).filter (fun a => decide (a ∉ pruneRemoved t percent)) := by
      rw [hpe]
      exact dictKeys_filterKey (fun a => decide (a ∉ pruneRemoved t percent)) _
    have hsub : ∀ x ∈ pruneRemoved t percent, x ∈ dictKeys t.counts :=
      fun x hx => nonHeapKeys_mem_keys (pruneRemoved_subset x hx)
    have hck : ∀ (d : List (α × Nat)), (dictKeys d).length = d.length := by
      intro d
      unfold dictKeys
      exact List.length_map _ _
    have heq : (t.prune percent).counts.length
        + max ((nonHeapKeys t).length * percent / 100) 1 = t.counts.length := by
      have hlendel := length_filter_del hkeys (pruneRemoved_nodup hkeys) hsub
      rw [pruneRemoved_length hne hpct] at hlendel
      rw [← hck (t.prune percent).counts, hkeysp, ← hck t.counts]
      exact hlendel
    have hdel_iff : ∀ a, a ∈ dictKeys t.counts →
        (a ∉ dictKeys (t.prune percent).counts ↔ a ∈ pruneRemoved t percent) := by
      intro a hak
      rw [hkeysp, List.mem_filter]
      constructor
      · intro hnm
        by_contra hnr
        exact hnm ⟨hak, decide_eq_true hnr⟩
      · intro hr hand
        exact (of_decide_eq_true hand.2) hr
    refine ⟨heq, by omega, ?_, ?_⟩
    · exact fun a hak hnot => pruneRemoved_subset a ((hdel_iff a hak).mp hnot)
    · intro a b hak hanot hbnh hbk
      have har : a ∈ pruneRemoved t percent := (hdel_iff a hak).mp hanot
      have hbnr : b ∉ pruneRemoved t percent := by
        intro hbr
        exact ((hdel_iff b (nonHeapKeys_mem_keys hbnh)).mpr hbr) hbk
      exact pruneRemoved_minimal a har b hbnh hbnr

theorem C2_prune_frame_witness :
    (dictKeys c2tracker.counts).Nodup ∧ (10 : Nat) ≤ 100 ∧
    (5 ∈ heapItems c2tracker) ∧
    dictFind (c2tracker.prune 10).counts 5 = dictFind c2tracker.counts 5 ∧
    (c2tracker.k < c2tracker.counts.length) ∧ (nonHeapKeys c2tracker ≠ []) ∧
    (c2tracker.prune 10).counts.length
        + max ((nonHeapKeys c2tracker).length * 10 / 100) 1
      = c2tracker.counts.length :=
  ⟨by decide, by decide, by decide,
   (C2_prune_frame c2tracker 10 (by decide) (by decide)).1 5 (by decide),
   by decide, by decide,
   ((C2_prune_frame c2tracker 10 (by decide) (by decide)).2.2 (by decide)
     (by decide)).1⟩

end Claims

/-! # Sortedness of get_top_k -/

section TopKThms

variable {α : Type} [LinearOrder α]

theorem get_top_k_length (t : TopKTracker α) (n : Nat) :
    (t.get_top_k n).length = min n (t.heap.length) := by
  unfold TopKTracker.get_top_k
  rw [List.length_map, List.length_take, List.length_insertionSort]

theorem get_top_k_sorted_of_WF {t : TopKTracker α} (h : WF t) (n : Nat) :
    List.Sorted (fun a b : α × Nat => b.2 ≤ a.2) (t.get_top_k n) := by
  obtain ⟨hkeys, hval, hlen, hnodup, hstored⟩ := h
  unfold TopKTracker.get_top_k
  have hpw : List.Pairwise (topLE (α := α))
      ((List.insertionSort topLE t.heap).take n) :=
    List.Pairwise.sublist (List.take_sublist _ _) (List.sorted_insertionSort topLE _)
  have hmem : ∀ e ∈ (List.insertionSort topLE t.heap).take n,
      counterGet t.counts e.2.2 = e.1 := by
    intro e he
    have hs := List.mem_of_mem_take he
    rw [List.mem_insertionSort] at hs
    exact counterGet_of_find_some (hstored e hs)
  rw [List.Sorted, List.pairwise_map]
  refine List.Pairwise.imp_of_mem ?_ hpw
  intro a b ha hb hr
  dsimp only
  rw [hmem a ha, hmem b hb]
  rcases hr with h1 | ⟨h1, _⟩
  · exact le_of_lt h1
  · exact le_of_eq h1.symm

theorem get_top_k_mem {t : TopKTracker α} {n : Nat} {p : α × Nat}
    (hlen : t.heap.length ≤ n) :
    (p ∈ t.get_top_k n ↔ ∃ e ∈ t.heap, e.2.2 = p.1 ∧ counterGet t.counts e.2.2 = p.2) := by
  unfold TopKTracker.get_top_k
  have htake : (List.insertionSort topLE t.heap).take n
      = List.insertionSort topLE t.heap := by
    apply List.take_of_length_le
    rw [List.length_insertionSort]
    exact hlen
  rw [htake, List.mem_map]
  constructor
  · rintro ⟨e, he, rfl⟩
    rw [List.mem_insertionSort] at he
    exact ⟨e, he, rfl, rfl⟩
  · rintro ⟨e, he, h1, h2⟩
    refine ⟨e, (List.mem_insertionSort _).mpr he, ?_⟩
    rw [h1] at h2 ⊢
    rw [h2]

end TopKThms

namespace Claims

/-- C3, amended: after any sequence of `add`/`prune` operations on a fresh
capacity-`k` tracker, `get_top_k n` returns a list of length exactly
`min n (heap size)` sorted by count descending; ties are ordered by
ascending stored heap tie key (the insertion counter at push time, reset
to 0 by `_update_heap` rebuilds), which matches insertion order only in
the absence of rebuilds.  Since the output pairs erase the tie keys, the
tie ordering is stated through an enrichment: a permutation `s` of the
heap entries `(count, tie, item)`, pairwise ordered by count descending
and, on equal counts, tie key ascending, whose item/current-count
projection of the first `n` entries is exactly the output; every heap
entry's stored count equals the item's current count, so the projection
pairs each item with its true current count. -/
theorem C3_get_top_k_sorted {α : Type} [LinearOrder α] (k n : Nat)
    (ops : List (TrackerOp α)) :
    ((applyOps (TopKTracker.init k) ops).get_top_k n).length
        = min n (applyOps (TopKTracker.init k) ops).heap.length ∧
    List.Sorted (fun a b : α × Nat => b.2 ≤ a.2)
      ((applyOps (TopKTracker.init k) ops).get_top_k n) ∧
    ∃ s : List (Nat × Nat × α),
      List.Perm s (applyOps (TopKTracker.init k) ops).heap ∧
      List.Pairwise
        (fun e f : Nat × Nat × α => f.1 < e.1 ∨ (e.1 = f.1 ∧ e.2.1 ≤ f.2.1)) s ∧
      (applyOps (TopKTracker.init k) ops).get_top_k n
        = (s.take n).map (fun e =>
            (e.2.2, counterGet (applyOps (TopKTracker.init k) ops).counts e.2.2)) ∧
      ∀ e ∈ (applyOps (TopKTracker.init k) ops).heap,
        counterGet (applyOps (TopKTracker.init k) ops).counts e.2.2 = e.1 := by
  refine ⟨get_top_k_length _ n,
    get_top_k_sorted_of_WF (WF_applyOps _ (WF_init k) ops) n,
    List.insertionSort topLE (applyOps (TopKTracker.init k) ops).heap,
    List.perm_insertionSort topLE _, List.sorted_insertionSort topLE _, rfl, ?_⟩
  intro e he
  exact counterGet_of_find_some ((WF_applyOps _ (WF_init k) ops).2.2.2.2 e he)

end Claims

/-! # Exact behaviour below capacity -/

section BelowCapThms

variable {α : Type} [LinearOrder α]

theorem nodup_length_le_dedup {l m : List α} (hl : l.Nodup)
    (hsub : ∀ x ∈ l, x ∈ m) : l.length ≤ m.dedup.length := by
  have h1 : l.toFinset.card = l.length := List.toFinset_card_of_nodup hl
  have h2 : l.toFinset ⊆ m.dedup.toFinset := by
    intro x hx
    rw [List.mem_toFinset] at hx ⊢
    exact List.mem_dedup.mpr (hsub x hx)
  have h3 : m.dedup.toFinset.card = m.dedup.length :=
    List.toFinset_card_of_nodup (List.nodup_dedup m)
  calc l.length = l.toFinset.card := h1.symm
    _ ≤ m.dedup.toFinset.card := Finset.card_le_card h2
    _ = m.dedup.length := h3

theorem count_append_one (seen : List α) (x a : α) :
    (seen ++ [x]).count a = seen.count a + (if a = x then 1 else 0) := by
  rw [List.count_append]
  by_cases h : a = x
  · subst h
    simp
  · simp [List.count_singleton, h]

theorem any_eq_of_mem {t : TopKTracker α} {a : α} (h : a ∈ heapItems t) :
    (t.heap.any fun e => decide (e.2.2 = a)) = true := by
  rw [List.any_eq_true]
  obtain ⟨e, he, hee⟩ := List.mem_map.mp h
  exact ⟨e, he, decide_eq_true hee⟩

theorem add_heap_of_mem {t : TopKTracker α} {a : α} (h : a ∈ heapItems t) :
    (t.add a).heap = updateHeapList (counterInc t.counts a) t.heap := by
  rw [add_heap, if_pos (any_eq_of_mem h)]

theorem add_heap_of_not_mem_lt {t : TopKTracker α} {a : α}
    (hna : a ∉ heapItems t) (hlt : t.heap.length < t.k) :
    (t.add a).heap = List.orderedInsert entryLE
      (counterGet (counterInc t.counts a) a, t.insertion_counter + 1, a) t.heap := by
  rw [add_heap]
  have hany : ¬ (t.heap.any fun e => decide (e.2.2 = a)) = true :=
    fun hh => hna (mem_of_any_eq hh)
  rw [if_neg hany, if_pos hlt]

theorem heapItems_add_of_mem {t : TopKTracker α} {a : α} (h : a ∈ heapItems t) :
    ∀ b, b ∈ heapItems (t.add a) ↔ b ∈ heapItems t := by
  intro b
  unfold heapItems
  rw [add_heap_of_mem h]
  exact (items_updateHeapList_perm _ _).mem_iff

theorem heapItems_add_of_not_mem {t : TopKTracker α} {a : α} (hna : a ∉ heapItems t)
    (hlt : t.heap.length < t.k) :
    ∀ b, b ∈ heapItems (t.add a) ↔ b = a ∨ b ∈ heapItems t := by
  intro b
  unfold heapItems
  rw [add_heap_of_not_mem_lt hna hlt]
  have hperm := (List.perm_orderedInsert entryLE
    (counterGet (counterInc t.counts a) a, t.insertion_counter + 1, a) t.heap).map
    (fun e : Nat × Nat × α => e.2.2)
  rw [hperm.mem_iff, List.map_cons, List.mem_cons]

theorem addList_invariant (k : Nat) :
    ∀ (items seen : List α) (t : TopKTracker α),
      WF t → t.k = k →
      (∀ a, counterGet t.counts a = seen.count a) →
      (∀ a, a ∈ heapItems t ↔ a ∈ seen) →
      seen.length + items.length ≤ k →
      WF (addList t items) ∧ (addList t items).k = k ∧
      (∀ a, counterGet (addList t items).counts a = (seen ++ items).count a) ∧
      (∀ a, a ∈ heapItems (addList t items) ↔ a ∈ seen ++ items) := by
  intro items
  induction items with
  | nil =>
    intro seen t hwf hk hcnt hmem _
    refine ⟨hwf, hk, ?_, ?_⟩
    · intro a
      rw [List.append_nil]
      exact hcnt a
    · intro a
      rw [List.append_nil]
      exact hmem a
  | cons x rest ih =>
    intro seen t hwf hk hcnt hmem hbound
    have hstep : addList t (x :: rest) = addList (t.add x) rest := rfl
    have hwf2 : WF (t.add x) := WF_add hwf x
    have hk2 : (t.add x).k = k := by rw [add_k, hk]
    have hcnt2 : ∀ a, counterGet (t.add x).counts a = (seen ++ [x]).count a := by
      intro a
      rw [add_counts, count_append_one]
      by_cases hax : a = x
      · subst hax
        rw [counterGet_counterInc_self, hcnt a, if_pos rfl]
      · rw [counterGet_counterInc_ne _ hax, hcnt a, if_neg hax]
        omega
    have hmem2 : ∀ a, a ∈ heapItems (t.add x) ↔ a ∈ seen ++ [x] := by
      intro a
      by_cases hx : x ∈ heapItems t
      · rw [heapItems_add_of_mem hx, hmem a, List.mem_append, List.mem_singleton]
        constructor
        · exact Or.inl
        · rintro (h | h)
          · exact h
          · rw [h]
            exact (hmem x).mp hx
      · have hlt : t.heap.length < t.k := by
          have h1 : (heapItems t).length = t.heap.length := List.length_map _ _
          have h2 : (heapItems t).Nodup := hwf.2.2.2.1
          have h3 : ∀ b ∈ heapItems t, b ∈ seen := fun b hb => (hmem b).mp hb
          have h4 := nodup_length_le_dedup h2 h3
          have h5 := List.Sublist.length_le (List.dedup_sublist seen)
          rw [List.length_cons] at hbound
          rw [hk]
          omega
        rw [heapItems_add_of_not_mem hx hlt, hmem a, List.mem_append,
          List.mem_singleton, or_comm]
    have hbound2 : (seen ++ [x]).length + rest.length ≤ k := by
      rw [List.length_append, List.length_singleton]
      rw [List.length_cons] at hbound
      omega
    have hmain := ih (seen ++ [x]) (t.add x) hwf2 hk2 hcnt2 hmem2 hbound2
    rw [hstep]
    refine ⟨hmain.1, hmain.2.1, ?_, ?_⟩
    · intro a
      rw [hmain.2.2.1 a, List.append_assoc, List.singleton_append]
    · intro a
      rw [hmain.2.2.2 a, List.append_assoc, List.singleton_append]

end BelowCapThms

namespace Claims

/-- C4: at most `k` `add` operations on a fresh capacity-`k` tracker (so at
most `k` distinct items, no eviction and no effective pruning) leave
`get_top_k k` exact: it returns every added item exactly once with its true
frequency and nothing else, sorted by count descending — the true frequency
ranking. -/
theorem C4_exact_below_capacity {α : Type} [LinearOrder α] (k : Nat) (items : List α)
    (hlen : items.length ≤ k) :
    (∀ a, a ∈ items ↔
      (a, items.count a) ∈ (addList (TopKTracker.init k) items).get_top_k k) ∧
    (∀ p ∈ (addList (TopKTracker.init k) items).get_top_k k,
       p.1 ∈ items ∧ p.2 = items.count p.1) ∧
    ((addList (TopKTracker.init k) items).get_top_k k).length = items.dedup.length ∧
    List.Sorted (fun a b : α × Nat => b.2 ≤ a.2)
      ((addList (TopKTracker.init k) items).get_top_k k) := by
  have hinv := addList_invariant k items [] (TopKTracker.init k) (WF_init k) rfl
    (fun _ => rfl) (by intro a; simp [heapItems, TopKTracker.init])
    (by simpa using hlen)
  obtain ⟨hwf, hk, hcnt, hmem⟩ := hinv
  have hitems_nodup : (heapItems (addList (TopKTracker.init k) items)).Nodup :=
    hwf.2.2.2.1
  have hitems_len : (heapItems (addList (TopKTracker.init k) items)).length
      = (addList (TopKTracker.init k) items).heap.length := List.length_map _ _
  have hmem2 : ∀ a, a ∈ heapItems (addList (TopKTracker.init k) items) ↔ a ∈ items := by
    intro a
    rw [hmem a, List.nil_append]
  have hcnt2 : ∀ a, counterGet (addList (TopKTracker.init k) items).counts a
      = items.count a := by
    intro a
    rw [hcnt a, List.nil_append]
  have hperm : List.Perm (heapItems (addList (TopKTracker.init k) items))
      items.dedup := by
    rw [List.perm_ext_iff_of_nodup hitems_nodup (List.nodup_dedup items)]
    intro a
    rw [hmem2 a, List.mem_dedup]
  have hheaplen : (addList (TopKTracker.init k) items).heap.length
      = items.dedup.length := by
    rw [← hitems_len, hperm.length_eq]
  have hheapk : (addList (TopKTracker.init k) items).heap.length ≤ k := by
    rw [hheaplen]
    exact le_trans (List.Sublist.length_le (List.dedup_sublist items)) hlen
  refine ⟨?_, ?_, ?_, get_top_k_sorted_of_WF hwf k⟩
  · intro a
    rw [get_top_k_mem hheapk]
    constructor
    · intro ha
      obtain ⟨e, he, hee⟩ := List.mem_map.mp ((hmem2 a).mpr ha)
      refine ⟨e, he, hee, ?_⟩
      rw [hee]
      exact hcnt2 a
    · rintro ⟨e, he, h1, _⟩
      have hmm : e.2.2 ∈ heapItems (addList (TopKTracker.init k) items) :=
        List.mem_map.mpr ⟨e, he, rfl⟩
      rw [h1] at hmm
      exact (hmem2 a).mp hmm
  · intro p hp
    rw [get_top_k_mem hheapk] at hp
    obtain ⟨e, he, h1, h2⟩ := hp
    have hmm : e.2.2 ∈ heapItems (addList (TopKTracker.init k) items) :=
      List.mem_map.mpr ⟨e, he, rfl⟩
    rw [h1] at hmm
    refine ⟨(hmem2 p.1).mp hmm, ?_⟩
    rw [← h2, h1, hcnt2]
  · rw [get_top_k_length, hheaplen]
    exact min_eq_right (le_trans (List.Sublist.length_le (List.dedup_sublist items)) hlen)

theorem C4_exact_below_capacity_witness :
    ([5, 7, 5] : List Nat).length ≤ 3 ∧
    ((5 : Nat) ∈ ([5, 7, 5] : List Nat) ↔
      ((5 : Nat), ([5, 7, 5] : List Nat).count 5) ∈
        (addList (TopKTracker.init 3) [5, 7, 5]).get_top_k 3) ∧
    ((addList (TopKTracker.init 3) ([5, 7, 5] : List Nat)).get_top_k 3).length
      = ([5, 7, 5] : List Nat).dedup.length :=
  ⟨by decide, (C4_exact_below_capacity 3 [5, 7, 5] (by decide)).1 5,
   (C4_exact_below_capacity 3 [5, 7, 5] (by decide)).2.2.1⟩

end Claims

namespace Claims

/-- C6: for a structurally matching line the validators run in the fixed
order timestamp, IP, status, request; a failure outcome carries exactly the
reason of the first failing field, the invocation trace stops at that
field (later validators are not invoked), and an accepted outcome requires
all four validators to have succeeded. -/
theorem C6_short_circuit_validation (g : Groups) :
    (∀ r : String, (processMatched g).1 = LineOutcome.failed r →
      ((r = "timestamp_error" ∧ parse_timestamp g = none ∧
          (processMatched g).2 = [VField.vTimestamp]) ∨
       (r = "ip_error" ∧ (parse_timestamp g).isSome = true ∧ parse_ip g = none ∧
          (processMatched g).2 = [VField.vTimestamp, VField.vIp]) ∨
       (r = "status_error" ∧ (parse_timestamp g).isSome = true ∧
          (parse_ip g).isSome = true ∧ parse_status g = none ∧
          (processMatched g).2 = [VField.vTimestamp, VField.vIp, VField.vStatus]) ∨
       (r = "request_error" ∧ (parse_timestamp g).isSome = true ∧
          (parse_ip g).isSome = true ∧ (parse_status g).isSome = true ∧
          parse_request g = none ∧
          (processMatched g).2 =
            [VField.vTimestamp, VField.vIp, VField.vStatus, VField.vRequest]))) ∧
    ((processMatched g).1.isAccepted = true →
      (parse_timestamp g).isSome = true ∧ (parse_ip g).isSome = true ∧
      (parse_status g).isSome = true ∧ (parse_request g).isSome = true) := by
  unfold processMatched
  cases h1 : parse_timestamp g with
  | none =>
    refine ⟨?_, ?_⟩
    · intro r hr
      simp only [LineOutcome.failed.injEq] at hr
      exact Or.inl ⟨hr.symm, rfl, rfl⟩
    · intro hacc
      simp [LineOutcome.isAccepted] at hacc
  | some minute =>
    cases h2 : parse_ip g with
    | none =>
      refine ⟨?_, ?_⟩
      · intro r hr
        simp only [LineOutcome.failed.injEq] at hr
        exact Or.inr (Or.inl ⟨hr.symm, rfl, rfl, rfl⟩)
      · intro hacc
        simp [LineOutcome.isAccepted] at hacc
    | some ip =>
      cases h3 : parse_status g with
      | none =>
        refine ⟨?_, ?_⟩
        · intro r hr
          simp only [LineOutcome.failed.injEq] at hr
          exact Or.inr (Or.inr (Or.inl
            ⟨hr.symm, rfl, rfl, rfl, rfl⟩))
        · intro hacc
          simp [LineOutcome.isAccepted] at hacc
      | some sg =>
        obtain ⟨st, gr⟩ := sg
        cases h4 : parse_request g with
        | none =>
          refine ⟨?_, ?_⟩
          · intro r hr
            simp only [LineOutcome.failed.injEq] at hr
            exact Or.inr (Or.inr (Or.inr
              ⟨hr.symm, rfl, rfl, rfl, rfl, rfl⟩))
          · intro hacc
            simp [LineOutcome.isAccepted] at hacc
        | some mp =>
          obtain ⟨meth, path⟩ := mp
          refine ⟨?_, ?_⟩
          · intro r hr
            dsimp only at hr
            by_cases hg : (!(ip = "") && !(minute = "") && !(st = "")
                && !(meth = "") && !(path = "")) = true
            · rw [if_pos hg] at hr
              exact absurd hr (by simp)
            · rw [if_neg hg] at hr
              exact absurd hr (by simp)
          · intro _
            exact ⟨rfl, rfl, rfl, rfl⟩

theorem C6_short_circuit_validation_witness :
    (processMatched c6groups).1 = LineOutcome.failed "ip_error" ∧
    logMatch c6line = some c6groups ∧
    (parse_timestamp c6groups).isSome = true ∧ parse_ip c6groups = none ∧
    (processMatched c6groups).2 = [VField.vTimestamp, VField.vIp] := by
  have h := (C6_short_circuit_validation c6groups).1 "ip_error" (by decide)
  refine ⟨by decide, by decide, ?_⟩
  rcases h with ⟨hr, _⟩ | ⟨_, h1, h2, h3⟩ | ⟨hr, _⟩ | ⟨hr, _⟩
  · exact absurd hr (by decide)
  · exact ⟨h1, h2, h3⟩
  · exact absurd hr (by decide)
  · exact absurd hr (by decide)

end Claims

/-! # Prune cadence of the streaming loop -/

section CadenceThms

theorem pruneSchedule_succ (cfg : RunConfig) (n : Nat) :
    pruneSchedule cfg (n + 1) = pruneSchedule cfg n ++ pruneIncrement cfg (n + 1) := rfl

theorem acceptStep_pruneEvents (cfg : RunConfig) (st : RunState)
    (lo mi ip s gr me pa : String) (sz : Option Nat) :
    (acceptStep cfg st lo mi ip s gr me pa sz).pruneEvents = st.pruneEvents := by
  unfold acceptStep
  dsimp only
  repeat' split
  all_goals rfl

theorem acceptStep_total (cfg : RunConfig) (st : RunState)
    (lo mi ip s gr me pa : String) (sz : Option Nat) :
    (acceptStep cfg st lo mi ip s gr me pa sz).total_lines_processed
      = st.total_lines_processed := by
  unfold acceptStep
  dsimp only
  repeat' split
  all_goals rfl

theorem lineStep_total (cfg : RunConfig) (st : RunState) (raw : String) :
    (lineStep cfg st raw).total_lines_processed = st.total_lines_processed + 1 := by
  unfold lineStep
  dsimp only
  repeat' split
  all_goals first | rfl | rw [acceptStep_total]

theorem lineStep_pruneEvents (cfg : RunConfig) (st : RunState) (raw : String) :
    (lineStep cfg st raw).pruneEvents
      = st.pruneEvents ++ pruneIncrement cfg (st.total_lines_processed + 1) := by
  unfold lineStep pruneIncrement
  dsimp only
  by_cases hc : ((st.total_lines_processed + 1) % 100000 = 0 && cfg.use_top_k
      && (st.total_lines_processed + 1) % PRUNE_EVERY_N_LINES = 0) = true
  · simp only [if_pos hc]
    repeat' split
    all_goals first | rfl | rw [acceptStep_pruneEvents]
  · simp only [if_neg hc]
    rw [List.append_nil]
    repeat' split
    all_goals first | rfl | rw [acceptStep_pruneEvents]

theorem runLines_append_one (cfg : RunConfig) (lines : List String) (l : String) :
    runLines cfg (lines ++ [l]) = lineStep cfg (runLines cfg lines) l := by
  unfold runLines
  rw [List.foldl_append]
  rfl

theorem runLines_total (cfg : RunConfig) (lines : List String) :
    (runLines cfg lines).total_lines_processed = lines.length := by
  induction lines using List.reverseRecOn with
  | nil => rfl
  | append_singleton ls a ih =>
    rw [runLines_append_one, lineStep_total, ih, List.length_append]
    rfl

theorem runLines_pruneEvents (cfg : RunConfig) (lines : List String) :
    (runLines cfg lines).pruneEvents = pruneSchedule cfg lines.length := by
  induction lines using List.reverseRecOn with
  | nil => rfl
  | append_singleton ls a ih =>
    rw [runLines_append_one, lineStep_pruneEvents, runLines_total, ih,
      List.length_append]
    rfl

theorem mem_pruneSchedule (cfg : RunConfig) (n : Nat) (e : String × Nat × Nat) :
    e ∈ pruneSchedule cfg n ↔
      ((e.1 = "IPs" ∨ e.1 = "URLs") ∧
       e.2.1 = (if cfg.memory_mode = "BALANCED" then 5 else 20) ∧
       e.2.2 % 100000 = 0 ∧ 0 < e.2.2 ∧ e.2.2 ≤ n ∧ cfg.use_top_k = true) := by
  obtain ⟨a, p, m⟩ := e
  dsimp only
  induction n with
  | zero =>
    constructor
    · intro h
      exact absurd h (List.not_mem_nil _)
    · rintro ⟨-, -, -, h4, h5, -⟩
      omega
  | succ n ih =>
    rw [pruneSchedule_succ, List.mem_append, ih]
    constructor
    · rintro (⟨h1, h2, h3, h4, h5, h6⟩ | hmem)
      · exact ⟨h1, h2, h3, h4, Nat.le_succ_of_le h5, h6⟩
      · unfold pruneIncrement at hmem
        by_cases hc : ((n + 1) % 100000 = 0 && cfg.use_top_k
            && (n + 1) % PRUNE_EVERY_N_LINES = 0) = true
        · rw [if_pos hc] at hmem
          simp only [Bool.and_eq_true, decide_eq_true_eq] at hc
          obtain ⟨⟨hmod, htop⟩, -⟩ := hc
          simp only [List.mem_cons, List.not_mem_nil, or_false,
            Prod.mk.injEq] at hmem
          rcases hmem with ⟨ha, hp, hm⟩ | ⟨ha, hp, hm⟩
          · subst ha; subst hp; subst hm
            exact ⟨Or.inl rfl, rfl, hmod, by omega, le_refl _, htop⟩
          · subst ha; subst hp; subst hm
            exact ⟨Or.inr rfl, rfl, hmod, by omega, le_refl _, htop⟩
        · rw [if_neg hc] at hmem
          exact absurd hmem (List.not_mem_nil _)
    · rintro ⟨h1, h2, h3, h4, h5, h6⟩
      by_cases h7 : m ≤ n
      · exact Or.inl ⟨h1, h2, h3, h4, h7, h6⟩
      · have h8 : m = n + 1 := by omega
        refine Or.inr ?_
        have hmod : (n + 1) % 100000 = 0 := h8 ▸ h3
        have hc : ((n + 1) % 100000 = 0 && cfg.use_top_k
            && (n + 1) % PRUNE_EVERY_N_LINES = 0) = true := by
          simp only [Bool.and_eq_true, decide_eq_true_eq]
          exact ⟨⟨hmod, h6⟩, hmod⟩
        unfold pruneIncrement
        rw [if_pos hc]
        simp only [List.mem_cons, List.not_mem_nil, or_false, Prod.mk.injEq]
        subst h8; subst h2
        rcases h1 with h1 | h1 <;> subst h1
        · exact Or.inl ⟨rfl, rfl, rfl⟩
        · exact Or.inr ⟨rfl, rfl, rfl⟩

end CadenceThms

namespace Claims

/-- C9 (amended): the prune events of a run are exactly `pruneSchedule`;
every event prunes the IPs or the URLs tracker (never the minutes
tracker), with percent 5 in BALANCED mode and 20 otherwise, at a line
number that is a positive multiple of 100000 within the input; in
tracker mode both the IPs and the URLs trackers are pruned at every such
line number; and when trackers are not used (FULL mode, `max_ips = 0`)
prune is never invoked. -/
theorem C9_prune_cadence (cfg : RunConfig) (lines : List String) :
    (runLines cfg lines).pruneEvents = pruneSchedule cfg lines.length ∧
    (∀ e ∈ (runLines cfg lines).pruneEvents,
        (e.1 = "IPs" ∨ e.1 = "URLs") ∧
        e.2.1 = (if cfg.memory_mode = "BALANCED" then 5 else 20) ∧
        e.2.2 % 100000 = 0 ∧ 0 < e.2.2 ∧ e.2.2 ≤ lines.length ∧
        cfg.use_top_k = true) ∧
    (∀ m : Nat, m % 100000 = 0 → 0 < m → m ≤ lines.length → cfg.use_top_k = true →
        ("IPs", (if cfg.memory_mode = "BALANCED" then 5 else 20), m)
            ∈ (runLines cfg lines).pruneEvents ∧
        ("URLs", (if cfg.memory_mode = "BALANCED" then 5 else 20), m)
            ∈ (runLines cfg lines).pruneEvents) ∧
    (cfg.use_top_k = false → (runLines cfg lines).pruneEvents = []) := by
  have hrw := runLines_pruneEvents cfg lines
  refine ⟨hrw, ?_, ?_, ?_⟩
  · intro e he
    rw [hrw] at he
    exact (mem_pruneSchedule cfg lines.length e).mp he
  · intro m h1 h2 h3 h4
    rw [hrw]
    exact ⟨(mem_pruneSchedule cfg lines.length _).mpr ⟨Or.inl rfl, rfl, h1, h2, h3, h4⟩,
           (mem_pruneSchedule cfg lines.length _).mpr ⟨Or.inr rfl, rfl, h1, h2, h3, h4⟩⟩
  · intro hf
    rw [hrw, List.eq_nil_iff_forall_not_mem]
    intro e he
    obtain ⟨-, -, -, -, -, h6⟩ := (mem_pruneSchedule cfg lines.length e).mp he
    rw [hf] at h6
    exact Bool.false_ne_true h6

/-- C9, counterexample to the original claim: in BALANCED mode a run of
100000 lines prunes the IPs and the URLs trackers at line 100000 and
nothing else — in particular the minutes tracker is not pruned, contrary
to the claim that all three trackers are pruned. -/
theorem C9_minutes_never_pruned_counterexample :
    balancedConfig.use_top_k = true ∧
    (runLines balancedConfig (List.replicate 100000 "x")).pruneEvents
      = [("IPs", 5, 100000), ("URLs", 5, 100000)] ∧
    ("minutes", 5, 100000) ∉
      (runLines balancedConfig (List.replicate 100000 "x")).pruneEvents := by
  have hrw := runLines_pruneEvents balancedConfig (List.replicate 100000 "x")
  rw [List.length_replicate] at hrw
  have h99 : pruneSchedule balancedConfig 99999 = [] := by
    rw [List.eq_nil_iff_forall_not_mem]
    intro e he
    obtain ⟨-, -, h3, h4, h5, -⟩ := (mem_pruneSchedule balancedConfig 99999 e).mp he
    omega
  have h100 : (100000 : Nat) = 99999 + 1 := by norm_num
  have heq : (runLines balancedConfig (List.replicate 100000 "x")).pruneEvents
      = [("IPs", 5, 100000), ("URLs", 5, 100000)] := by
    rw [hrw, h100, pruneSchedule_succ, h99, List.nil_append, ← h100]
    decide
  refine ⟨by decide, heq, ?_⟩
  rw [heq]
  decide

end Claims

end SnapAnalog
